import Mathlib

/-!
# Connection manager of the metron v2 client pool

A shallow embedding of `src/metron/internal/clientpool/v2/conn_manager.go`.

* Memory: the manager value, the heap cells holding `v2GRPCConn` structs
  (the manager's `conn` field is a pointer to one of them, or nil) and the
  chronological list of calls made to the external collaborators.
* `Write` and the parts of `maintainConn` are given twice: as whole
  operations executed without interference (sequential runs), and as
  atomic steps of threads that a scheduler interleaves.  Each atomic step
  contains exactly one access to shared memory or one external call.
* Diagnostics written with `log.Printf` are not part of the state.
-/

namespace ClientPoolV2

/-! ## Data model -/

/-- One `*plumbing.Envelope`; the manager never looks inside. -/
abbrev Envelope := Nat

/-- The `[]*plumbing.Envelope` argument of `Write`. -/
abbrev Batch := List Envelope

/-- A Go `error` value, identified by its message. -/
abbrev GoError := String

/-- The struct `v2GRPCConn`.  `client` and `closer` are handles of the
interface values returned by the connector; `writes` is an `int64`. -/
structure v2GRPCConn where
  name : String
  client : Nat
  closer : Nat
  writes : Int
deriving DecidableEq, Repr

/-- The fields of `ConnManager` that the code reads or writes after
construction.  `conn` is the `unsafe.Pointer`: `none` is nil, `some p` is
the address of heap cell `p`.  `reset` is the content of the buffered
channel, oldest element first. -/
structure ConnManager where
  conn : Option Nat
  maxWrites : Int
  reset : List Bool
deriving DecidableEq, Repr

/-- A call to an external collaborator.  `send` and `close` record the heap
address of the connection through which the call was made. -/
inductive Event where
  | send (conn : Nat) (client : Nat) (batch : Batch)
  | close (conn : Nat) (closer : Nat)
  | connect
deriving DecidableEq, Repr

/-- The external collaborators: the `Connector` and the stream clients it
hands out.  Their answers may depend on everything that happened before. -/
structure World where
  /-- What `fmt.Sprintf("%s", m.connector)` yields. -/
  connectorName : String
  /-- The method `Connector.Connect`: an error, or a closer and a client. -/
  Connect : List Event → Except GoError (Nat × Nat)
  /-- The method `Send` of a client on a batch: nil or an error. -/
  Send : List Event → Nat → Batch → Option GoError

/-- Shared memory and the history of external calls. -/
structure State where
  m : ConnManager
  heap : List v2GRPCConn
  trace : List Event
deriving DecidableEq, Repr

/-- Capacity of the channel made by `make(chan bool, 100)`. -/
def resetCap : Nat := 100

/-- The error built at line 50. -/
def noConnection : GoError := "no connection to doppler present"

/-- Two's complement wrap-around of a 64 bit signed integer. -/
def wrapInt64 (x : Int) : Int :=
  (x + ((2 ^ 63 : Nat) : Int)) % ((2 ^ 64 : Nat) : Int) - ((2 ^ 63 : Nat) : Int)

/-- The new value computed by `atomic.AddInt64`. -/
def AddInt64 (v delta : Int) : Int := wrapInt64 (v + delta)

/-- Range of the type `int64`. -/
def IsInt64 (x : Int) : Prop :=
  -((2 ^ 63 : Nat) : Int) ≤ x ∧ x < ((2 ^ 63 : Nat) : Int)

instance (x : Int) : Decidable (IsInt64 x) := by
  unfold IsInt64; exact inferInstance

/-! ## Elementary memory operations -/

/-- The call `atomic.LoadPointer(&m.conn)`. -/
def State.LoadPointer (s : State) : Option Nat := s.m.conn

/-- The call `atomic.StorePointer(&m.conn, p)`. -/
def State.StorePointer (s : State) (p : Option Nat) : State :=
  { s with m := { s.m with conn := p } }

/-- Dereference of a `*v2GRPCConn`. -/
def State.deref (s : State) (p : Nat) : Option v2GRPCConn := s.heap[p]?

/-- Append one external call to the history. -/
def State.record (s : State) (e : Event) : State :=
  { s with trace := s.trace ++ [e] }

/-- Overwrite heap cell `p`. -/
def State.setCell (s : State) (p : Nat) (c : v2GRPCConn) : State :=
  { s with heap := s.heap.set p c }

/-- Allocate a new heap cell; its address is the old heap size. -/
def State.alloc (s : State) (c : v2GRPCConn) : State × Nat :=
  ({ s with heap := s.heap ++ [c] }, s.heap.length)

/-- Is there room in the `reset` channel, so that a send proceeds? -/
def State.canSignal (s : State) : Bool := decide (s.m.reset.length < resetCap)

/-- The effect of `m.reset <- true` once it proceeds. -/
def State.signal (s : State) : State :=
  { s with m := { s.m with reset := s.m.reset ++ [true] } }

/-- The result of `NewConnManager` before the goroutine it starts has run. -/
def NewConnManager (maxWrites : Int) : State :=
  { m := { conn := none, maxWrites := maxWrites, reset := [] }, heap := [], trace := [] }

/-! ## Write, executed without interference -/

/-- How a call of `Write` ends.  `blocked ret s`: the call is parked at
`m.reset <- true` because the channel is full, in memory `s`, and will
return `ret` after the send.  `fault`: the pointer held no heap cell (no Go
execution gets there). -/
inductive WriteResult where
  | returned (err : Option GoError) (s : State)
  | blocked (ret : Option GoError) (s : State)
  | fault
deriving DecidableEq, Repr

/-- The method `ConnManager.Write`, lines 47 to 72. -/
def Write (W : World) (s : State) (envelopes : Batch) : WriteResult :=
  match s.LoadPointer with
  | none => .returned (some noConnection) s
  | some conn =>
    match s.deref conn with
    | none => .fault
    | some gRPCConn =>
      let err := W.Send s.trace gRPCConn.client envelopes
      let s := s.record (.send conn gRPCConn.client envelopes)
      match err with
      | some e =>
        let s := s.StorePointer none
        let s := s.record (.close conn gRPCConn.closer)
        if s.canSignal then .returned (some e) s.signal else .blocked (some e) s
      | none =>
        let n := AddInt64 gRPCConn.writes 1
        let s := s.setCell conn { gRPCConn with writes := n }
        if n ≥ s.m.maxWrites then
          let s := s.StorePointer none
          let s := s.record (.close conn gRPCConn.closer)
          if s.canSignal then .returned none s.signal else .blocked none s
        else .returned none s

/-! ## The reconciliation loop, executed without interference -/

/-- Which case of the `select` in `checkConnectionTimer` fires. -/
inductive Wake where
  | ticker
  | reset
deriving DecidableEq, Repr

/-- The method `checkConnectionTimer`: `none` when the chosen case is not
ready (a receive from an empty `reset` channel).  When the ticker fires is
decided outside the program. -/
def checkConnectionTimer (w : Wake) (s : State) : Option State :=
  match w with
  | .ticker => some s
  | .reset =>
    match s.m.reset with
    | [] => none
    | _ :: rest => some { s with m := { s.m with reset := rest } }

/-- Lines 82 to 97 of `maintainConn`: the loop body after the wait. -/
def maintainConnBody (W : World) (s : State) : State :=
  match s.LoadPointer with
  | some _ => s
  | none =>
    let r := W.Connect s.trace
    let s := s.record .connect
    match r with
    | .error _ => s
    | .ok (closer, senderClient) =>
      let (s, p) := s.alloc
        { name := W.connectorName, client := senderClient, closer := closer, writes := 0 }
      s.StorePointer (some p)

/-- One turn of the loop of `maintainConn`, lines 80 to 97. -/
def maintainConnCycle (W : World) (w : Wake) (s : State) : Option State :=
  (checkConnectionTimer w s).map (maintainConnBody W)

/-- Line 77 of `maintainConn`: the send that precedes the loop; `none`
while the channel is full. -/
def maintainConnPrologue (s : State) : Option State :=
  if s.canSignal then some s.signal else none

/-! ## Sequential runs -/

/-- An operation of a sequential run: each one is executed to completion
before the next one starts. -/
inductive Op where
  /-- Line 77.  The program executes it once; a run accepts it anywhere,
  which can only add reachable memories. -/
  | prologue
  /-- A call of `Write` that returns. -/
  | write (envelopes : Batch)
  /-- One turn of the loop of `maintainConn`. -/
  | cycle (w : Wake)
deriving DecidableEq, Repr

/-- Execute one operation to completion; `none` when it cannot complete
without another thread acting (a parked send or receive). -/
def applyOp (W : World) (s : State) : Op → Option State
  | .prologue => maintainConnPrologue s
  | .write envelopes =>
    match Write W s envelopes with
    | .returned _ s1 => some s1
    | _ => none
  | .cycle w => maintainConnCycle W w s

/-- Execute a list of operations one after the other. -/
def runOps (W : World) : State → List Op → Option State
  | s, [] => some s
  | s, op :: ops =>
    match applyOp W s op with
    | none => none
    | some s1 => runOps W s1 ops

/-- Consecutive calls of `Write`, collecting what each one returns. -/
def writeSeq (W : World) : State → List Batch → Option (List (Option GoError) × State)
  | s, [] => some ([], s)
  | s, b :: bs =>
    match Write W s b with
    | .returned err s1 => (writeSeq W s1 bs).map (fun r => (err :: r.1, r.2))
    | _ => none

/-- Number of times the closer of the connection at address `p` was invoked. -/
def closeCount (p : Nat) (tr : List Event) : Nat :=
  (tr.filter (fun e => match e with
    | .close q _ => decide (q = p)
    | _ => false)).length

/-- Number of calls of `Connector.Connect`. -/
def connectCount (tr : List Event) : Nat :=
  (tr.filter (fun e => match e with
    | .connect => true
    | _ => false)).length

/-- Number of calls of `Send` through the connection at address `p`. -/
def sendCount (p : Nat) (tr : List Event) : Nat :=
  (tr.filter (fun e => match e with
    | .send q _ _ => decide (q = p)
    | _ => false)).length

/-! ## Interleaved execution -/

/-- Program points of a call of `Write`: the statement executed next. -/
inductive WPc where
  /-- Line 48, the load of `m.conn`, with the nil test of line 49. -/
  | load
  /-- Line 54, the call of `Send`, with the test of line 56. -/
  | send
  /-- Line 58. -/
  | storeErr
  /-- Line 59. -/
  | closeErr
  /-- Line 60, followed by the return of line 61. -/
  | signalErr
  /-- Line 64, the atomic add and the comparison. -/
  | add
  /-- Line 66. -/
  | storeMax
  /-- Line 67. -/
  | closeMax
  /-- Line 68, followed by the return of line 71. -/
  | signalMax
  /-- The call has returned. -/
  | done
deriving DecidableEq, Repr

/-- A running call of `Write`: its argument, its program point and its
local variables `conn` and `err` (`err` holds the return value at `done`). -/
structure Writer where
  envelopes : Batch
  pc : WPc
  conn : Option Nat
  err : Option GoError
deriving DecidableEq, Repr

/-- A call of `Write` that has not executed anything yet. -/
def Writer.enter (envelopes : Batch) : Writer :=
  { envelopes := envelopes, pc := .load, conn := none, err := none }

/-- One atomic step of a call of `Write`.  `none`: the call cannot move
(parked at a full channel, returned, or holding no heap cell). -/
def stepWrite (W : World) (s : State) (t : Writer) : Option (State × Writer) :=
  match t.pc, t.conn with
  | .load, _ =>
    match s.LoadPointer with
    | none => some (s, { t with pc := .done, err := some noConnection })
    | some p => some (s, { t with pc := .send, conn := some p })
  | .send, some p =>
    match s.deref p with
    | none => none
    | some gRPCConn =>
      let err := W.Send s.trace gRPCConn.client t.envelopes
      let s := s.record (.send p gRPCConn.client t.envelopes)
      match err with
      | some e => some (s, { t with pc := .storeErr, err := some e })
      | none => some (s, { t with pc := .add })
  | .storeErr, _ => some (s.StorePointer none, { t with pc := .closeErr })
  | .closeErr, some p =>
    match s.deref p with
    | none => none
    | some gRPCConn => some (s.record (.close p gRPCConn.closer), { t with pc := .signalErr })
  | .signalErr, _ =>
    if s.canSignal then some (s.signal, { t with pc := .done }) else none
  | .add, some p =>
    match s.deref p with
    | none => none
    | some gRPCConn =>
      let n := AddInt64 gRPCConn.writes 1
      let s := s.setCell p { gRPCConn with writes := n }
      if n ≥ s.m.maxWrites then some (s, { t with pc := .storeMax })
      else some (s, { t with pc := .done })
  | .storeMax, _ => some (s.StorePointer none, { t with pc := .closeMax })
  | .closeMax, some p =>
    match s.deref p with
    | none => none
    | some gRPCConn => some (s.record (.close p gRPCConn.closer), { t with pc := .signalMax })
  | .signalMax, _ =>
    if s.canSignal then some (s.signal, { t with pc := .done }) else none
  | _, _ => none

/-- Run a call of `Write` alone for at most `fuel` atomic steps, stopping
where it cannot move. -/
def Writer.run (W : World) : Nat → State → Writer → State × Writer
  | 0, s, t => (s, t)
  | fuel + 1, s, t =>
    match stepWrite W s t with
    | none => (s, t)
    | some (s1, t1) => Writer.run W fuel s1 t1

/-- Read the outcome of a call off the point where it stopped. -/
def WriteResult.ofThread (r : State × Writer) : WriteResult :=
  match r.2.pc with
  | .done => .returned r.2.err r.1
  | .signalErr => .blocked r.2.err r.1
  | .signalMax => .blocked r.2.err r.1
  | _ => .fault

/-- Program points of the goroutine running `maintainConn`. -/
inductive BgPc where
  /-- Line 77. -/
  | prologue
  /-- Line 80, the `select`. -/
  | wait
  /-- Lines 82 to 85. -/
  | load
  /-- Lines 87 to 91. -/
  | dial
  /-- Lines 93 to 97, holding the values `Connect` returned. -/
  | store (closer senderClient : Nat)
deriving DecidableEq, Repr

/-- One atomic step of `maintainConn`; `w` is the case chosen at the
`select`.  `none`: the goroutine cannot move. -/
def stepMaintain (W : World) (w : Wake) (s : State) : BgPc → Option (State × BgPc)
  | .prologue => if s.canSignal then some (s.signal, .wait) else none
  | .wait => (checkConnectionTimer w s).map (fun s1 => (s1, .load))
  | .load =>
    match s.LoadPointer with
    | some _ => some (s, .wait)
    | none => some (s, .dial)
  | .dial =>
    let r := W.Connect s.trace
    let s := s.record .connect
    match r with
    | .error _ => some (s, .wait)
    | .ok (closer, senderClient) => some (s, .store closer senderClient)
  | .store closer senderClient =>
    let (s, p) := s.alloc
      { name := W.connectorName, client := senderClient, closer := closer, writes := 0 }
    some (s.StorePointer (some p), .wait)

/-- The whole program: memory, the reconciliation goroutine and the calls
of `Write` made so far. -/
structure Sys where
  mem : State
  bg : BgPc
  writers : List Writer
deriving DecidableEq, Repr

/-- What the scheduler lets happen next. -/
inductive Act where
  /-- Some caller enters `Write`. -/
  | call (envelopes : Batch)
  /-- The `i`-th call of `Write` executes one atomic step. -/
  | writer (i : Nat)
  /-- The reconciliation goroutine executes one atomic step. -/
  | maintain (w : Wake)
deriving DecidableEq, Repr

/-- The program right after `NewConnManager` returned. -/
def Sys.init (maxWrites : Int) : Sys :=
  { mem := NewConnManager maxWrites, bg := .prologue, writers := [] }

/-- One scheduler action; `none` when the chosen thread cannot move. -/
def Sys.step (W : World) (σ : Sys) : Act → Option Sys
  | .call envelopes => some { σ with writers := σ.writers ++ [Writer.enter envelopes] }
  | .writer i =>
    match σ.writers[i]? with
    | none => none
    | some t =>
      match stepWrite W σ.mem t with
      | none => none
      | some (s, t1) => some { σ with mem := s, writers := σ.writers.set i t1 }
  | .maintain w =>
    (stepMaintain W w σ.mem σ.bg).map (fun r => { σ with mem := r.1, bg := r.2 })

/-- A schedule, executed from left to right. -/
def Sys.run (W : World) : Sys → List Act → Option Sys
  | σ, [] => some σ
  | σ, a :: as =>
    match Sys.step W σ a with
    | none => none
    | some σ1 => Sys.run W σ1 as

/-! ## Concrete collaborators used in the examples -/

/-- A world whose connector always succeeds and whose clients always fail. -/
def failingWorld : World :=
  { connectorName := "doppler", Connect := fun _ => .ok (7, 3), Send := fun _ _ _ => some "boom" }

/-- A world whose connector always succeeds and whose clients always succeed. -/
def healthyWorld : World :=
  { connectorName := "doppler", Connect := fun _ => .ok (7, 3), Send := fun _ _ _ => none }

/-- A world whose connector always fails. -/
def unreachableWorld : World :=
  { connectorName := "doppler", Connect := fun _ => .error "dial", Send := fun _ _ _ => none }

/-- A memory with one installed connection with `writes = 0`. -/
def oneConn (maxWrites : Int) (reset : List Bool) : State :=
  { m := { conn := some 0, maxWrites := maxWrites, reset := reset }
    heap := [{ name := "doppler", client := 3, closer := 7, writes := 0 }]
    trace := [.connect] }

/-! ## Derived notions and concrete runs used in the statements -/

/-- The memory in which a sequential run fills the reset channel: the
prologue, then ninety-nine times a ticker cycle followed by a write that
tears the connection down, then one more ticker cycle. -/
def pileUpOps : List Op :=
  Op.prologue :: (List.replicate 99 [Op.cycle .ticker, Op.write [1]]).flatten
    ++ [Op.cycle .ticker]

/-- The memory reached by `pileUpOps` from a new manager. -/
def pileUp (W : World) (maxWrites : Int) : State :=
  (runOps W (NewConnManager maxWrites) pileUpOps).getD (NewConnManager maxWrites)

/-- The memory in which a call of `Write` ended or parked. -/
def WriteResult.memory : WriteResult → Option State
  | .returned _ s => some s
  | .blocked _ s => some s
  | .fault => none

/-- The invariant of sequential runs: the threshold is `N` and an installed
connection has a heap cell whose counter lies in `[0, N)`. -/
def CounterInv (N : Int) (s : State) : Prop :=
  s.m.maxWrites = N ∧
    ∀ p, s.m.conn = some p → ∃ c, s.deref p = some c ∧ 0 ≤ c.writes ∧ c.writes < N

/-- A short sequential run with threshold 2: connect, one write, a second
write that recycles the connection, and a cycle that installs a new one. -/
def shortRun : List Op :=
  [.prologue, .cycle .reset, .write [1], .write [2], .cycle .reset]

/-- A schedule in which a second connection is installed between the load
and the clear step of the first call of `Write`. -/
def raceSchedule : List Act :=
  [ .maintain .ticker, .maintain .reset, .maintain .ticker, .maintain .ticker,
    .maintain .ticker,
    .call [1], .call [2], .writer 0, .writer 1,
    .writer 1, .writer 1, .writer 1, .writer 1,
    .maintain .reset, .maintain .ticker, .maintain .ticker, .maintain .ticker,
    .writer 0 ]

/-- The program after `raceSchedule`, with failing sends and `maxWrites = 5`. -/
def raceState : Sys :=
  (Sys.run failingWorld (Sys.init 5) raceSchedule).getD (Sys.init 5)

/-- A schedule in which two calls of `Write` load the same connection and
both tear it down. -/
def doubleCloseSchedule : List Act :=
  [ .maintain .ticker, .maintain .reset, .maintain .ticker, .maintain .ticker,
    .maintain .ticker,
    .call [1], .call [2], .writer 0, .writer 1,
    .writer 0, .writer 0, .writer 0,
    .writer 1, .writer 1, .writer 1 ]

/-- The program after `doubleCloseSchedule`, with failing sends. -/
def doubleCloseState : Sys :=
  (Sys.run failingWorld (Sys.init 5) doubleCloseSchedule).getD (Sys.init 5)

/-- Has this call of `Write` invoked the closer of the connection at `a`?
(An over-approximation: every call that loaded `a` and is at or past the
channel send, or has returned.) -/
def Writer.pastClose (a : Nat) (t : Writer) : Bool :=
  decide (t.conn = some a) && (t.pc == .signalErr || t.pc == .signalMax || t.pc == .done)

/-- Number of calls of `Write` that loaded the connection at `a`. -/
def loaders (a : Nat) (ws : List Writer) : Nat :=
  ws.countP (fun t => decide (t.conn = some a))

/-- The invariant of sequential runs about closers: no connection was
closed twice, addresses not yet allocated were never closed, and the
installed connection is allocated and was never closed. -/
def OnceInv (s : State) : Prop :=
  ∀ a, closeCount a s.trace ≤ 1
    ∧ (s.heap.length ≤ a → closeCount a s.trace = 0)
    ∧ (s.m.conn = some a → closeCount a s.trace = 0 ∧ a < s.heap.length)

/-- Is this call of `Write` about to execute its close step (line 59 or
line 67) on the connection at `a`, which it loaded? -/
def Writer.atClose (a : Nat) (t : Writer) : Bool :=
  decide (t.conn = some a) && (t.pc == .closeErr || t.pc == .closeMax)

/-- The index of the call of `Write` that action `act`, taken in `σ`, makes
execute its close step on the connection at `a`, if there is one. -/
def closingCall (σ : Sys) (a : Nat) : Act → Option Nat
  | .writer i =>
    match σ.writers[i]? with
    | some t => if t.atClose a then some i else none
    | none => none
  | _ => none

/-- The calls of `Write` that execute their close step on the connection
at `a` during a schedule, in the order in which they do so. -/
def closers (W : World) (a : Nat) : Sys → List Act → List Nat
  | _, [] => []
  | σ, act :: acts =>
    match Sys.step W σ act with
    | none => []
    | some σ1 => (closingCall σ a act).toList ++ closers W a σ1 acts

set_option maxRecDepth 100000

/-! ## Basic facts -/

@[simp] theorem closeCount_nil (p : Nat) : closeCount p [] = 0 := rfl

@[simp] theorem closeCount_append (p : Nat) (xs ys : List Event) :
    closeCount p (xs ++ ys) = closeCount p xs + closeCount p ys := by
  simp [closeCount]

@[simp] theorem closeCount_close (p q c : Nat) :
    closeCount p [Event.close q c] = if q = p then 1 else 0 := by
  by_cases h : q = p <;> simp [closeCount, h]

@[simp] theorem closeCount_send (p q c : Nat) (b : Batch) :
    closeCount p [Event.send q c b] = 0 := by
  simp [closeCount]

@[simp] theorem closeCount_connect (p : Nat) : closeCount p [Event.connect] = 0 := by
  simp [closeCount]

theorem Write_of_absent (W : World) (s : State) (b : Batch) (h : s.m.conn = none) :
    Write W s b = .returned (some noConnection) s := by
  simp [Write, State.LoadPointer, h]

theorem checkConnectionTimer_frame (w : Wake) (s s1 : State)
    (h : checkConnectionTimer w s = some s1) :
    s1.m.conn = s.m.conn ∧ s1.m.maxWrites = s.m.maxWrites ∧ s1.heap = s.heap
      ∧ s1.trace = s.trace := by
  cases w with
  | ticker => simp [checkConnectionTimer] at h; subst h; simp
  | reset =>
    cases hr : s.m.reset with
    | nil => simp [checkConnectionTimer, hr] at h
    | cons x rest => simp [checkConnectionTimer, hr] at h; subst h; simp

theorem maintainConnBody_of_installed (W : World) (s : State) (p : Nat)
    (h : s.m.conn = some p) : maintainConnBody W s = s := by
  simp [maintainConnBody, State.LoadPointer, h]

/-! ## Claims about single operations -/

/-- C1: with no connection installed, `Write` returns the error "no
connection to doppler present" and hands back the memory it was given:
no external call is recorded, the reset channel and the heap are untouched. -/
theorem C1_write_without_connection (W : World) (s : State) (b : Batch)
    (h : s.m.conn = none) :
    Write W s b = .returned (some "no connection to doppler present") s
      ∧ ∀ s1 err, Write W s b = .returned err s1 →
          s1.trace = s.trace ∧ s1.m.reset = s.m.reset ∧ s1 = s := by
  have hw := Write_of_absent W s b h
  refine ⟨hw, ?_⟩
  intro s1 err h1
  rw [hw] at h1
  injection h1 with _ h2
  subst h2
  exact ⟨rfl, rfl, rfl⟩

/-- Witness of C1 on a freshly constructed manager. -/
theorem C1_write_without_connection_witness :
    (NewConnManager 3).m.conn = none
      ∧ Write failingWorld (NewConnManager 3) [1, 2]
          = .returned (some "no connection to doppler present") (NewConnManager 3) :=
  ⟨rfl, (C1_write_without_connection failingWorld (NewConnManager 3) [1, 2] rfl).1⟩

/-- C2: with connection `c` installed at `p`, room in the reset channel and
a failing send, `Write` returns the error of the send; the recorded calls
are the send followed by one close of `c`; the heap (so the counter of `c`)
is unchanged; the reference is nil; one signal is appended to the channel;
and a `Write` issued right afterwards returns the no-connection error. -/
theorem C2_write_send_error (W : World) (s : State) (b : Batch) (p : Nat)
    (c : v2GRPCConn) (e : GoError)
    (hconn : s.m.conn = some p) (hcell : s.deref p = some c)
    (hroom : s.m.reset.length < resetCap)
    (hsend : W.Send s.trace c.client b = some e) :
    ∃ s1, Write W s b = .returned (some e) s1
      ∧ s1.trace = s.trace ++ [.send p c.client b, .close p c.closer]
      ∧ closeCount p s1.trace = closeCount p s.trace + 1
      ∧ s1.heap = s.heap
      ∧ s1.deref p = some c
      ∧ s1.m.conn = none
      ∧ s1.m.reset = s.m.reset ++ [true]
      ∧ s1.m.maxWrites = s.m.maxWrites
      ∧ ∀ b2, Write W s1 b2 = .returned (some noConnection) s1 := by
  refine ⟨(((s.record (.send p c.client b)).StorePointer none).record
      (.close p c.closer)).signal, ?_, ?_, ?_, ?_, ?_, ?_, ?_, ?_, ?_⟩
  · simp [Write, State.LoadPointer, hconn, hcell, hsend, State.canSignal, State.record,
      State.StorePointer, hroom]
  · simp [State.signal, State.record, State.StorePointer]
  · simp [State.signal, State.record, State.StorePointer, closeCount]
  · simp [State.signal, State.record, State.StorePointer]
  · simpa [State.signal, State.record, State.StorePointer, State.deref] using hcell
  · simp [State.signal, State.record, State.StorePointer]
  · simp [State.signal, State.record, State.StorePointer]
  · simp [State.signal, State.record, State.StorePointer]
  · intro b2
    apply Write_of_absent
    simp [State.signal, State.record, State.StorePointer]

/-- Witness of C2: one installed connection, an empty channel, a failing client. -/
theorem C2_write_send_error_witness :
    ∃ s1, Write failingWorld (oneConn 5 []) [1] = .returned (some "boom") s1
      ∧ s1.trace = (oneConn 5 []).trace ++ [.send 0 3 [1], .close 0 7]
      ∧ closeCount 0 s1.trace = closeCount 0 (oneConn 5 []).trace + 1
      ∧ s1.heap = (oneConn 5 []).heap
      ∧ s1.deref 0 = some { name := "doppler", client := 3, closer := 7, writes := 0 }
      ∧ s1.m.conn = none
      ∧ s1.m.reset = (oneConn 5 []).m.reset ++ [true]
      ∧ s1.m.maxWrites = (oneConn 5 []).m.maxWrites
      ∧ ∀ b2, Write failingWorld s1 b2 = .returned (some noConnection) s1 :=
  C2_write_send_error failingWorld (oneConn 5 []) [1] 0
    { name := "doppler", client := 3, closer := 7, writes := 0 } "boom"
    rfl rfl (by decide) rfl

theorem runOps_cycles_of_installed (W : World) (p : Nat) (ws : List Wake) :
    ∀ s s1 : State, s.m.conn = some p → runOps W s (ws.map Op.cycle) = some s1 →
      s1.m.conn = some p ∧ s1.m.maxWrites = s.m.maxWrites ∧ s1.heap = s.heap
        ∧ s1.trace = s.trace := by
  induction ws with
  | nil =>
    intro s s1 _ h
    simp [runOps] at h
    subst h
    simp [*]
  | cons w ws ih =>
    intro s s1 hc h
    simp only [List.map_cons, runOps, applyOp, maintainConnCycle] at h
    cases hw : checkConnectionTimer w s with
    | none => simp [hw] at h
    | some s2 =>
      obtain ⟨h1, h2, h3, h4⟩ := checkConnectionTimer_frame w s s2 hw
      have hc2 : s2.m.conn = some p := by rw [h1, hc]
      simp [hw, maintainConnBody_of_installed W s2 p hc2] at h
      obtain ⟨k1, k2, k3, k4⟩ := ih s2 s1 hc2 h
      exact ⟨k1, by rw [k2, h2], by rw [k3, h3], by rw [k4, h4]⟩

theorem runOps_ticker_of_installed (W : World) (p : Nat) (s : State)
    (hc : s.m.conn = some p) (n : Nat) :
    runOps W s (List.replicate n (Op.cycle .ticker)) = some s := by
  induction n with
  | zero => rfl
  | succ n ih =>
    simp [List.replicate_succ, runOps, applyOp, maintainConnCycle, checkConnectionTimer,
      maintainConnBody_of_installed W s p hc, ih]

/-- C4: with a connection installed at `p`, the loop body of `maintainConn`
changes nothing; a whole cycle (wait, then body) completes on a ticker wake
and on a reset wake that finds a signal, records no call of `Connect` or of
a closer and leaves the reference and the heap (so the counter) as they
were; the same holds after any number of consecutive cycles. -/
theorem C4_cycle_noop_when_installed (W : World) (s : State) (p : Nat)
    (hconn : s.m.conn = some p) :
    maintainConnBody W s = s
      ∧ maintainConnCycle W .ticker s = some s
      ∧ (∀ x rest, s.m.reset = x :: rest →
          maintainConnCycle W .reset s = some { s with m := { s.m with reset := rest } })
      ∧ (∀ w s1, maintainConnCycle W w s = some s1 →
          s1.trace = s.trace ∧ s1.m.conn = some p ∧ s1.heap = s.heap)
      ∧ (∀ (ws : List Wake) s1, runOps W s (ws.map Op.cycle) = some s1 →
          connectCount s1.trace = connectCount s.trace ∧ s1.trace = s.trace
            ∧ s1.m.conn = some p ∧ s1.heap = s.heap)
      ∧ ∀ n, runOps W s (List.replicate n (Op.cycle .ticker)) = some s := by
  refine ⟨maintainConnBody_of_installed W s p hconn, ?_, ?_, ?_, ?_, ?_⟩
  · simp [maintainConnCycle, checkConnectionTimer, maintainConnBody_of_installed W s p hconn]
  · intro x rest hr
    simp [maintainConnCycle, checkConnectionTimer, hr, maintainConnBody, State.LoadPointer,
      hconn]
  · intro w s1 h
    have h1 := runOps_cycles_of_installed W p [w] s s1 hconn (by
      simp [runOps, applyOp, h])
    exact ⟨h1.2.2.2, h1.1, h1.2.2.1⟩
  · intro ws s1 h
    have h1 := runOps_cycles_of_installed W p ws s s1 hconn h
    exact ⟨by rw [h1.2.2.2], h1.2.2.2, h1.1, h1.2.2.1⟩
  · exact runOps_ticker_of_installed W p s hconn

/-- Witness of C4: three cycles on a memory with one installed connection
and two pending signals. -/
theorem C4_cycle_noop_when_installed_witness :
    (oneConn 5 [true, true]).m.conn = some 0
      ∧ runOps healthyWorld (oneConn 5 [true, true])
          (List.replicate 3 (Op.cycle .ticker)) = some (oneConn 5 [true, true])
      ∧ maintainConnCycle healthyWorld .reset (oneConn 5 [true, true])
          = some (oneConn 5 [true]) :=
  ⟨rfl, (C4_cycle_noop_when_installed healthyWorld (oneConn 5 [true, true]) 0 rfl).2.2.2.2.2 3,
    (C4_cycle_noop_when_installed healthyWorld (oneConn 5 [true, true]) 0 rfl).2.2.1
      true [true] rfl⟩

/-- C5: with no connection installed, the loop body of `maintainConn`
records exactly one call of `Connect` and nothing else; afterwards a
connection is installed exactly when `Connect` returned no error.  On
success the reference points at a new heap cell holding the closer and the
client that `Connect` returned, the connector name and `writes = 0`.  On
failure memory is unchanged, and `Write` still returns the no-connection
error.  In both cases the body ends and the cycle yields a next state. -/
theorem C5_cycle_connects_when_absent (W : World) (s : State)
    (hconn : s.m.conn = none) :
    (maintainConnBody W s).trace = s.trace ++ [.connect]
      ∧ connectCount (maintainConnBody W s).trace = connectCount s.trace + 1
      ∧ (∀ q, closeCount q (maintainConnBody W s).trace = closeCount q s.trace)
      ∧ (∀ q, sendCount q (maintainConnBody W s).trace = sendCount q s.trace)
      ∧ ((maintainConnBody W s).m.conn.isSome ↔ ∃ r, W.Connect s.trace = .ok r)
      ∧ (∀ closer client, W.Connect s.trace = .ok (closer, client) →
          (maintainConnBody W s).m.conn = some s.heap.length
            ∧ (maintainConnBody W s).deref s.heap.length
                = some { name := W.connectorName, client := client, closer := closer,
                         writes := 0 }
            ∧ (maintainConnBody W s).heap
                = s.heap ++ [{ name := W.connectorName, client := client, closer := closer,
                               writes := 0 }])
      ∧ (∀ e, W.Connect s.trace = .error e →
          maintainConnBody W s = s.record .connect
            ∧ (maintainConnBody W s).m.conn = none
            ∧ (maintainConnBody W s).heap = s.heap
            ∧ ∀ b, Write W (maintainConnBody W s) b
                = .returned (some noConnection) (maintainConnBody W s))
      ∧ (maintainConnBody W s).m.reset = s.m.reset
      ∧ (maintainConnBody W s).m.maxWrites = s.m.maxWrites
      ∧ maintainConnCycle W .ticker s = some (maintainConnBody W s)
      ∧ ∀ x rest, s.m.reset = x :: rest →
          maintainConnCycle W .reset s
            = some (maintainConnBody W { s with m := { s.m with reset := rest } }) := by
  have hbody : maintainConnBody W s =
      match W.Connect s.trace with
      | .error _ => s.record .connect
      | .ok (closer, client) =>
        ((s.record .connect).alloc
          { name := W.connectorName, client := client, closer := closer, writes := 0 }
          ).1.StorePointer (some s.heap.length) := by
    simp only [maintainConnBody, State.LoadPointer, hconn]
    cases W.Connect s.trace with
    | error e => rfl
    | ok r => rfl
  rw [hbody]
  cases hC : W.Connect s.trace with
  | error e =>
    refine ⟨?_, ?_, ?_, ?_, ?_, ?_, ?_, ?_, ?_, ?_, ?_⟩
    · simp [State.record]
    · simp [State.record, connectCount]
    · intro q; simp [State.record]
    · intro q; simp [State.record, sendCount]
    · simp [State.record, hconn]
    · intro closer client h; simp at h
    · intro e2 _
      refine ⟨rfl, by simp [State.record, hconn], by simp [State.record], ?_⟩
      intro b
      apply Write_of_absent
      simp [State.record, hconn]
    · simp [State.record]
    · simp [State.record]
    · simp [maintainConnCycle, checkConnectionTimer, hbody, hC]
    · intro x rest hr
      simp [maintainConnCycle, checkConnectionTimer, hr]
  | ok r =>
    obtain ⟨closer, client⟩ := r
    refine ⟨?_, ?_, ?_, ?_, ?_, ?_, ?_, ?_, ?_, ?_, ?_⟩
    · simp [State.record, State.alloc, State.StorePointer]
    · simp [State.record, State.alloc, State.StorePointer, connectCount]
    · intro q; simp [State.record, State.alloc, State.StorePointer]
    · intro q; simp [State.record, State.alloc, State.StorePointer, sendCount]
    · simp [State.record, State.alloc, State.StorePointer]
    · intro closer2 client2 h
      simp only [Except.ok.injEq, Prod.mk.injEq] at h
      obtain ⟨h1, h2⟩ := h
      subst h1 h2
      simp [State.record, State.alloc, State.StorePointer, State.deref]
    · intro e h; simp at h
    · simp [State.record, State.alloc, State.StorePointer]
    · simp [State.record, State.alloc, State.StorePointer]
    · simp [maintainConnCycle, checkConnectionTimer, hbody, hC]
    · intro x rest hr
      simp [maintainConnCycle, checkConnectionTimer, hr]

/-- Witness of C5: a failing connector leaves a fresh manager without a
connection, after exactly one call of `Connect`. -/
theorem C5_cycle_connects_when_absent_witness :
    (NewConnManager 5).m.conn = none
      ∧ (maintainConnBody unreachableWorld (NewConnManager 5)).trace = [.connect]
      ∧ (maintainConnBody unreachableWorld (NewConnManager 5)).m.conn = none
      ∧ (maintainConnBody healthyWorld (NewConnManager 5)).m.conn = some 0 :=
  ⟨rfl, (C5_cycle_connects_when_absent unreachableWorld (NewConnManager 5) rfl).1,
    ((C5_cycle_connects_when_absent unreachableWorld (NewConnManager 5) rfl).2.2.2.2.2.2.1
      "dial" rfl).2.1,
    ((C5_cycle_connects_when_absent healthyWorld (NewConnManager 5) rfl).2.2.2.2.2.1
      7 3 rfl).1⟩

/-! ## Sequential `Write` and the thread of atomic steps -/

theorem deref_lt (s : State) (p : Nat) (c : v2GRPCConn) (h : s.deref p = some c) :
    p < s.heap.length := by
  unfold State.deref at h
  exact (List.getElem?_eq_some.mp h).1

/-- The operation `Write` is the thread of atomic steps run alone: six
steps always reach the point where the call returns or parks. -/
theorem Write_eq_thread (W : World) (s : State) (b : Batch) :
    Write W s b = WriteResult.ofThread (Writer.run W 6 s (Writer.enter b)) := by
  cases hc : s.m.conn with
  | none =>
    simp [Write, Writer.run, stepWrite, Writer.enter, State.LoadPointer, hc,
      WriteResult.ofThread]
  | some p =>
    cases hd : s.deref p with
    | none =>
      simp [Write, Writer.run, stepWrite, Writer.enter, State.LoadPointer, hc, hd,
        WriteResult.ofThread]
    | some c =>
      have hp := deref_lt s p c hd
      have hd2 : s.heap[p]? = some c := hd
      cases hs : W.Send s.trace c.client b with
      | some e =>
        by_cases hroom : s.m.reset.length < resetCap
        · simp [Write, Writer.run, stepWrite, Writer.enter, State.LoadPointer, hc, hd, hs,
            WriteResult.ofThread, State.record, State.StorePointer, State.canSignal,
            State.signal, State.deref, hd2, hroom]
        · simp [Write, Writer.run, stepWrite, Writer.enter, State.LoadPointer, hc, hd, hs,
            WriteResult.ofThread, State.record, State.StorePointer, State.canSignal,
            State.signal, State.deref, hd2, hroom]
      | none =>
        by_cases hge : s.m.maxWrites ≤ AddInt64 c.writes 1
        · by_cases hroom : s.m.reset.length < resetCap
          · simp [Write, Writer.run, stepWrite, Writer.enter, State.LoadPointer, hc, hd, hs,
              WriteResult.ofThread, State.record, State.StorePointer, State.canSignal,
              State.signal, State.deref, State.setCell, hd2, hroom, hge, hp]
          · simp [Write, Writer.run, stepWrite, Writer.enter, State.LoadPointer, hc, hd, hs,
              WriteResult.ofThread, State.record, State.StorePointer, State.canSignal,
              State.signal, State.deref, State.setCell, hd2, hroom, hge, hp]
        · simp [Write, Writer.run, stepWrite, Writer.enter, State.LoadPointer, hc, hd, hs,
            WriteResult.ofThread, State.record, State.StorePointer, State.canSignal,
            State.signal, State.deref, State.setCell, hd2, hge, hp]

/-! ## The recycling threshold -/

theorem wrapInt64_of_range (x : Int) (h : IsInt64 x) : wrapInt64 x = x := by
  unfold IsInt64 at h
  unfold wrapInt64
  norm_num at h ⊢
  omega

theorem AddInt64_one (v n : Int) (h0 : 0 ≤ v) (hv : v < n) (hn : IsInt64 n) :
    AddInt64 v 1 = v + 1 := by
  apply wrapInt64_of_range
  unfold IsInt64 at hn ⊢
  norm_num at hn ⊢
  omega

theorem writeSeq_append (W : World) (xs ys : List Batch) :
    ∀ s : State, writeSeq W s (xs ++ ys) =
      (writeSeq W s xs).bind (fun r =>
        (writeSeq W r.2 ys).map (fun r2 => (r.1 ++ r2.1, r2.2))) := by
  induction xs with
  | nil => intro s; simp [writeSeq]
  | cons b xs ih =>
    intro s
    cases hW : Write W s b with
    | returned err s1 =>
      simp only [List.cons_append, writeSeq, hW, ih s1]
      cases h1 : writeSeq W s1 xs with
      | none => simp [ih s1, h1]
      | some r =>
        cases h2 : writeSeq W r.2 ys with
        | none => simp [ih s1, h1, h2]
        | some r2 => simp [ih s1, h1, h2]
    | blocked ret s1 => simp [writeSeq, hW]
    | fault => simp [writeSeq, hW]

/-- A successful write below the threshold: the counter advances by one,
the send is recorded, nothing else changes. -/
theorem Write_below_threshold (W : World) (s : State) (b : Batch) (p : Nat)
    (c : v2GRPCConn) (hconn : s.m.conn = some p) (hcell : s.deref p = some c)
    (h0 : 0 ≤ c.writes) (hlt : c.writes + 1 < s.m.maxWrites) (hint : IsInt64 s.m.maxWrites)
    (hsend : W.Send s.trace c.client b = none) :
    Write W s b = .returned none
      ((s.record (.send p c.client b)).setCell p { c with writes := c.writes + 1 }) := by
  have hadd : AddInt64 c.writes 1 = c.writes + 1 :=
    AddInt64_one c.writes s.m.maxWrites h0 (by omega) hint
  simp only [Write, State.LoadPointer, hconn, hcell, hsend, hadd]
  have : ¬ (c.writes + 1 ≥ s.m.maxWrites) := by omega
  simp [State.setCell, State.record, this]

/-- A successful write that reaches the threshold, with room in the channel. -/
theorem Write_at_threshold (W : World) (s : State) (b : Batch) (p : Nat)
    (c : v2GRPCConn) (hconn : s.m.conn = some p) (hcell : s.deref p = some c)
    (h0 : 0 ≤ c.writes) (hlt : c.writes < s.m.maxWrites) (hge : c.writes + 1 ≥ s.m.maxWrites)
    (hint : IsInt64 s.m.maxWrites) (hroom : s.m.reset.length < resetCap)
    (hsend : W.Send s.trace c.client b = none) :
    ∃ s1, Write W s b = .returned none s1
      ∧ s1.m.conn = none
      ∧ s1.trace = s.trace ++ [.send p c.client b, .close p c.closer]
      ∧ s1.m.reset = s.m.reset ++ [true]
      ∧ s1.m.maxWrites = s.m.maxWrites
      ∧ s1.heap = s.heap.set p { c with writes := c.writes + 1 } := by
  have hadd : AddInt64 c.writes 1 = c.writes + 1 :=
    AddInt64_one c.writes s.m.maxWrites h0 hlt hint
  refine ⟨((((s.record (.send p c.client b)).setCell p { c with writes := c.writes + 1 }
        ).StorePointer none).record (.close p c.closer)).signal, ?_, ?_, ?_, ?_, ?_, ?_⟩
  · simp only [Write, State.LoadPointer, hconn, hcell, hsend, hadd]
    simp [State.setCell, State.record, State.StorePointer, State.canSignal, hge, hroom]
  all_goals simp [State.setCell, State.record, State.StorePointer, State.signal]

theorem writeSeq_below_threshold (W : World) (p : Nat) (bs : List Batch) :
    ∀ (s : State) (c : v2GRPCConn), s.m.conn = some p → s.deref p = some c →
      0 ≤ c.writes → c.writes + bs.length < s.m.maxWrites → IsInt64 s.m.maxWrites →
      (∀ pre b post, bs = pre ++ b :: post →
        W.Send (s.trace ++ pre.map (Event.send p c.client)) c.client b = none) →
      ∃ s1, writeSeq W s bs = some (List.replicate bs.length none, s1)
        ∧ s1.m = s.m
        ∧ s1.deref p = some { c with writes := c.writes + bs.length }
        ∧ s1.trace = s.trace ++ bs.map (Event.send p c.client) := by
  induction bs with
  | nil =>
    intro s c _ hcell _ _ _ _
    exact ⟨s, rfl, rfl, by simpa using hcell, by simp⟩
  | cons b bs ih =>
    intro s c hconn hcell h0 hlt hint hsend
    have hlen : ((b :: bs).length : Int) = (bs.length : Int) + 1 := by simp
    rw [hlen] at hlt
    have hs0 : W.Send s.trace c.client b = none := by
      simpa using hsend [] b bs rfl
    have hW := Write_below_threshold W s b p c hconn hcell h0 (by omega) hint hs0
    have hp : p < s.heap.length := by
      unfold State.deref at hcell
      exact (List.getElem?_eq_some.mp hcell).1
    obtain ⟨s1, h1, h2, h3, h4⟩ := ih
      ((s.record (.send p c.client b)).setCell p { c with writes := c.writes + 1 })
      { c with writes := c.writes + 1 }
      (by simpa [State.setCell, State.record] using hconn)
      (by simp [State.setCell, State.record, State.deref, hp])
      (by show 0 ≤ c.writes + 1; omega)
      (by show c.writes + 1 + (bs.length : Int) < _
          simp only [State.setCell, State.record]; omega)
      (by simpa [State.setCell, State.record] using hint)
      (by
        intro pre b2 post hsplit
        have := hsend (b :: pre) b2 post (by rw [hsplit]; rfl)
        simpa [State.setCell, State.record] using this)
    refine ⟨s1, ?_, ?_, ?_, ?_⟩
    · simp [writeSeq, hW, h1, List.replicate_succ]
    · rw [h2]; simp [State.setCell, State.record]
    · rw [h3]; simp; omega
    · rw [h4]; simp [State.setCell, State.record]

theorem closeCount_map_send (p q cl : Nat) (bs : List Batch) :
    closeCount p (bs.map (Event.send q cl)) = 0 := by
  induction bs with
  | nil => rfl
  | cons b bs ih =>
    have : closeCount p ([Event.send q cl b] ++ bs.map (Event.send q cl)) = 0 := by
      rw [closeCount_append, ih]; simp
    simpa using this

/-- C3, as amended: with `maxWrites = N > 0`, connection `c` installed at
`p` with counter 0, room in the reset channel and `N` consecutive writes
whose sends succeed: every write returns nil; after the first `k < N`
writes `c` is still installed, its counter is `k` and no close of `c` was
added; after all `N` writes exactly one close of `c` was added, the
reference is nil, one signal was enqueued and a further `Write` returns
the no-connection error. -/
theorem C3_recycle_at_threshold (W : World) (s : State) (p : Nat) (c : v2GRPCConn)
    (N : Nat) (bs : List Batch)
    (hN : 0 < N) (hint : IsInt64 (N : Int)) (hmax : s.m.maxWrites = (N : Int))
    (hconn : s.m.conn = some p) (hcell : s.deref p = some c) (hfresh : c.writes = 0)
    (hlen : bs.length = N)
    (hsend : ∀ pre b post, bs = pre ++ b :: post →
        W.Send (s.trace ++ pre.map (Event.send p c.client)) c.client b = none)
    (hroom : s.m.reset.length < resetCap) :
    (∀ k, k < N → ∃ sk, writeSeq W s (bs.take k) = some (List.replicate k none, sk)
        ∧ sk.m.conn = some p
        ∧ sk.deref p = some { c with writes := (k : Int) }
        ∧ closeCount p sk.trace = closeCount p s.trace)
      ∧ ∃ sN, writeSeq W s bs = some (List.replicate N none, sN)
        ∧ sN.m.conn = none
        ∧ closeCount p sN.trace = closeCount p s.trace + 1
        ∧ sN.m.reset = s.m.reset ++ [true]
        ∧ ∀ b, Write W sN b = .returned (some noConnection) sN := by
  have hint2 : IsInt64 s.m.maxWrites := by rw [hmax]; exact hint
  constructor
  · intro k hk
    have hlk : (bs.take k).length = k := by
      rw [List.length_take, hlen]; omega
    obtain ⟨sk, h1, h2, h3, h4⟩ := writeSeq_below_threshold W p (bs.take k) s c hconn hcell
      (by omega) (by rw [hlk, hmax, hfresh]; omega) hint2
      (by
        intro pre b post hsplit
        apply hsend pre b (post ++ bs.drop k)
        have hsp := List.take_append_drop k bs
        rw [hsplit] at hsp
        simpa using hsp.symm)
    refine ⟨sk, ?_, ?_, ?_, ?_⟩
    · rw [h1, hlk]
    · rw [h2, hconn]
    · rw [h3, hlk, hfresh]; simp
    · rw [h4, closeCount_append, closeCount_map_send]; rfl
  · rcases List.eq_nil_or_concat bs with hnil | ⟨front, b, hbs⟩
    · subst hnil; simp at hlen; omega
    · rw [List.concat_eq_append] at hbs
      subst hbs
      have hlf : (front.length : Int) + 1 = (N : Int) := by
        have : front.length + 1 = N := by simpa using hlen
        omega
      obtain ⟨s1, h1, h2, h3, h4⟩ := writeSeq_below_threshold W p front s c hconn hcell
        (by omega) (by rw [hmax, hfresh]; omega) hint2
        (by
          intro pre b2 post hsplit
          apply hsend pre b2 (post ++ [b])
          rw [hsplit]; simp)
      have hconn1 : s1.m.conn = some p := by rw [h2, hconn]
      have hmax1 : s1.m.maxWrites = (N : Int) := by rw [h2, hmax]
      obtain ⟨sN, hW, k1, k2, k3, _, _⟩ := Write_at_threshold W s1 b p
        { c with writes := c.writes + front.length }
        hconn1 h3
        (by show 0 ≤ c.writes + (front.length : Int); omega)
        (by show c.writes + (front.length : Int) < _; rw [hmax1, hfresh]; omega)
        (by show c.writes + (front.length : Int) + 1 ≥ _; rw [hmax1, hfresh]; omega)
        (by rw [hmax1]; exact hint)
        (by rw [h2]; exact hroom)
        (by
          rw [h4]
          apply hsend front b []
          rfl)
      refine ⟨sN, ?_, k1, ?_, ?_, ?_⟩
      · rw [writeSeq_append, h1]
        simp only [Option.some_bind, writeSeq, hW, Option.map_some']
        have : front.length + 1 = N := by simpa using hlen
        rw [← this, List.replicate_succ']
      · rw [k2, h4]
        simp [closeCount_map_send, closeCount]
      · rw [k3, h2]
      · intro b2
        exact Write_of_absent W sN b2 k1

/-- Witness of C3: threshold 3, three writes that succeed. -/
theorem C3_recycle_at_threshold_witness :
    ∃ sN, writeSeq healthyWorld (oneConn 3 [true]) [[1], [2], [3]]
        = some ([none, none, none], sN)
      ∧ sN.m.conn = none
      ∧ closeCount 0 sN.trace = closeCount 0 (oneConn 3 [true]).trace + 1
      ∧ sN.m.reset = [true, true]
      ∧ ∀ b, Write healthyWorld sN b = .returned (some noConnection) sN :=
  (C3_recycle_at_threshold healthyWorld (oneConn 3 [true]) 0
    { name := "doppler", client := 3, closer := 7, writes := 0 } 3 [[1], [2], [3]]
    (by decide) (by decide) rfl rfl rfl rfl rfl (fun _ _ _ _ => rfl) (by decide)).2

/-- C3 as stated fails when the reset channel is full: the memory `pileUp`
is reached by a sequential run from a new manager with `maxWrites = 1`; it
has a newly installed connection with counter 0 and a hundred pending
signals; the single write, whose send succeeds, is parked at the channel
send and does not return. -/
theorem C3_counterexample_full_channel :
    runOps healthyWorld (NewConnManager 1) pileUpOps = some (pileUp healthyWorld 1)
      ∧ (pileUp healthyWorld 1).m.conn = some 99
      ∧ ((pileUp healthyWorld 1).deref 99).map (fun c => c.writes) = some 0
      ∧ closeCount 99 (pileUp healthyWorld 1).trace = 0
      ∧ (pileUp healthyWorld 1).m.reset.length = 100
      ∧ healthyWorld.Send (pileUp healthyWorld 1).trace 3 [1] = none
      ∧ writeSeq healthyWorld (pileUp healthyWorld 1) [[1]] = none
      ∧ ∀ err s1, Write healthyWorld (pileUp healthyWorld 1) [1] ≠ .returned err s1 := by
  refine ⟨by decide, by decide, by decide, by decide, by decide, rfl, by decide, ?_⟩
  intro err s1 h
  have hb : (match Write healthyWorld (pileUp healthyWorld 1) [1] with
      | .blocked _ _ => true
      | _ => false) = true := by decide
  rw [h] at hb
  exact Bool.false_ne_true hb

/-! ## A full reset channel -/

/-- C7, as amended: with connection `c` installed at `p` and the reset
channel holding its full capacity, a `Write` that tears the connection down
(failing send, or threshold reached) does not return by itself.  It clears
the reference, invokes the closer of `c` once and parks at the channel
send with the channel content unchanged, so no signal is dropped.  Once
the reconciliation loop has received one signal, the parked call enqueues
its own signal and returns what the send returned. -/
theorem C7_teardown_parks_on_full_channel (W : World) (s : State) (b : Batch) (p : Nat)
    (c : v2GRPCConn) (hconn : s.m.conn = some p) (hcell : s.deref p = some c)
    (hfull : s.m.reset.length = resetCap)
    (htear : W.Send s.trace c.client b ≠ none ∨ s.m.maxWrites ≤ AddInt64 c.writes 1) :
    ∃ s1 t, Writer.run W 6 s (Writer.enter b) = (s1, t)
      ∧ Write W s b = .blocked (W.Send s.trace c.client b) s1
      ∧ (t.pc = .signalErr ∨ t.pc = .signalMax)
      ∧ stepWrite W s1 t = none
      ∧ s1.m.conn = none
      ∧ s1.m.reset = s.m.reset
      ∧ closeCount p s1.trace = closeCount p s.trace + 1
      ∧ ∃ s2, checkConnectionTimer .reset s1 = some s2
          ∧ stepWrite W s2 t = some (s2.signal, { t with pc := .done })
          ∧ t.err = W.Send s.trace c.client b
          ∧ s2.signal.m.reset.length = resetCap := by
  have hp := deref_lt s p c hcell
  have hd2 : s.heap[p]? = some c := hcell
  have hroom : ¬ (s.m.reset.length < resetCap) := by omega
  obtain ⟨x, rest, hr⟩ : ∃ x rest, s.m.reset = x :: rest := by
    cases hr : s.m.reset with
    | nil => rw [hr] at hfull; simp [resetCap] at hfull
    | cons x rest => exact ⟨x, rest, rfl⟩
  have hrest : rest.length + 1 = resetCap := by rw [← hfull, hr]; rfl
  have hrest2 : rest.length < resetCap := by omega
  cases hs : W.Send s.trace c.client b with
  | some e =>
    have hrun : Writer.run W 6 s (Writer.enter b) =
        (((s.record (.send p c.client b)).StorePointer none).record (.close p c.closer),
          { envelopes := b, pc := .signalErr, conn := some p, err := some e }) := by
      simp [Writer.run, stepWrite, Writer.enter, State.LoadPointer, hconn, hcell, hs,
        State.record, State.StorePointer, State.canSignal, State.deref, hd2, hroom]
    refine ⟨_, _, hrun, ?_, Or.inl rfl, ?_, ?_, ?_, ?_, ?_⟩
    · rw [Write_eq_thread, hrun]; rfl
    · simp [stepWrite, State.record, State.StorePointer, State.canSignal, hroom]
    · simp [State.record, State.StorePointer]
    · simp [State.record, State.StorePointer]
    · simp [State.record, State.StorePointer, closeCount]
    · refine ⟨_, by simp [checkConnectionTimer, State.record, State.StorePointer, hr]; rfl,
        ?_, rfl, ?_⟩
      · simp [stepWrite, State.canSignal, hrest2]
      · simp [State.signal, hrest]
  | none =>
    have hge : s.m.maxWrites ≤ AddInt64 c.writes 1 := by
      rcases htear with h | h
      · exact absurd hs h
      · exact h
    have hrun : Writer.run W 6 s (Writer.enter b) =
        ((((s.record (.send p c.client b)).setCell p
            { c with writes := AddInt64 c.writes 1 }).StorePointer none).record
            (.close p c.closer),
          { envelopes := b, pc := .signalMax, conn := some p, err := none }) := by
      simp [Writer.run, stepWrite, Writer.enter, State.LoadPointer, hconn, hcell, hs,
        State.record, State.StorePointer, State.canSignal, State.deref, State.setCell, hd2,
        hroom, hge, hp]
    refine ⟨_, _, hrun, ?_, Or.inr rfl, ?_, ?_, ?_, ?_, ?_⟩
    · rw [Write_eq_thread, hrun]; rfl
    · simp [stepWrite, State.record, State.StorePointer, State.setCell, State.canSignal, hroom]
    · simp [State.record, State.StorePointer]
    · simp [State.record, State.StorePointer, State.setCell]
    · simp [State.record, State.StorePointer, State.setCell, closeCount]
    · refine ⟨_, by simp [checkConnectionTimer, State.record, State.StorePointer,
        State.setCell, hr]; rfl, ?_, rfl, ?_⟩
      · simp [stepWrite, State.canSignal, hrest2]
      · simp [State.signal, hrest]

/-- Witness of C7: a hundred pending signals, a failing send. -/
theorem C7_teardown_parks_on_full_channel_witness :
    ∃ s1 t, Writer.run failingWorld 6 (oneConn 5 (List.replicate 100 true)) (Writer.enter [1])
        = (s1, t)
      ∧ Write failingWorld (oneConn 5 (List.replicate 100 true)) [1]
          = .blocked (failingWorld.Send (oneConn 5 (List.replicate 100 true)).trace 3 [1]) s1
      ∧ (t.pc = .signalErr ∨ t.pc = .signalMax)
      ∧ stepWrite failingWorld s1 t = none
      ∧ s1.m.conn = none
      ∧ s1.m.reset = (oneConn 5 (List.replicate 100 true)).m.reset
      ∧ closeCount 0 s1.trace = closeCount 0 (oneConn 5 (List.replicate 100 true)).trace + 1
      ∧ ∃ s2, checkConnectionTimer .reset s1 = some s2
          ∧ stepWrite failingWorld s2 t = some (s2.signal, { t with pc := .done })
          ∧ t.err = failingWorld.Send (oneConn 5 (List.replicate 100 true)).trace 3 [1]
          ∧ s2.signal.m.reset.length = resetCap :=
  C7_teardown_parks_on_full_channel failingWorld (oneConn 5 (List.replicate 100 true)) [1] 0
    { name := "doppler", client := 3, closer := 7, writes := 0 } rfl rfl (by decide)
    (Or.inl (by decide))

/-- C7 as stated fails: the memory `pileUp`, reached by a sequential run
from a new manager, holds a hundred pending signals and an installed
connection; a `Write` whose send fails there does not return. -/
theorem C7_counterexample_write_parks :
    runOps failingWorld (NewConnManager 5) pileUpOps = some (pileUp failingWorld 5)
      ∧ (pileUp failingWorld 5).m.conn = some 99
      ∧ (pileUp failingWorld 5).m.reset.length = 100
      ∧ failingWorld.Send (pileUp failingWorld 5).trace 3 [1] = some "boom"
      ∧ ∀ err s1, Write failingWorld (pileUp failingWorld 5) [1] ≠ .returned err s1 := by
  refine ⟨by decide, by decide, by decide, rfl, ?_⟩
  intro err s1 h
  have hb : (match Write failingWorld (pileUp failingWorld 5) [1] with
      | .blocked _ _ => true
      | _ => false) = true := by decide
  rw [h] at hb
  exact Bool.false_ne_true hb

/-! ## Transitions of the reference -/

/-- What `Write` does to the reference: it never installs a connection, it
clears the reference only after a failed send or when the incremented
counter reaches `maxWrites`, and otherwise leaves the reference alone. -/
theorem Write_transitions (W : World) (s : State) (b : Batch) (s1 : State)
    (h : (Write W s b).memory = some s1) :
    (s.m.conn = none → s1.m.conn = none)
      ∧ (∀ p, s.m.conn = some p → s1.m.conn = none →
          ∃ c, s.deref p = some c
            ∧ (W.Send s.trace c.client b ≠ none
                ∨ (W.Send s.trace c.client b = none
                    ∧ s.m.maxWrites ≤ AddInt64 c.writes 1)))
      ∧ (∀ p q, s.m.conn = some p → s1.m.conn = some q → q = p) := by
  cases hc : s.m.conn with
  | none =>
    rw [Write_of_absent W s b hc] at h
    simp only [WriteResult.memory, Option.some.injEq] at h
    subst h
    simp [hc]
  | some p =>
    cases hd : s.deref p with
    | none => simp [Write, State.LoadPointer, hc, hd, WriteResult.memory] at h
    | some c =>
      cases hs : W.Send s.trace c.client b with
      | some e =>
        have h1 : s1.m.conn = none := by
          by_cases hroom : s.m.reset.length < resetCap
          · simp [Write, State.LoadPointer, hc, hd, hs, WriteResult.memory, State.record,
              State.StorePointer, State.canSignal, State.signal, hroom] at h
            subst h; rfl
          · simp [Write, State.LoadPointer, hc, hd, hs, WriteResult.memory, State.record,
              State.StorePointer, State.canSignal, State.signal, hroom] at h
            subst h; rfl
        refine ⟨by simp, ?_, ?_⟩
        · intro p2 hp2 _
          simp only [Option.some.injEq] at hp2
          subst hp2
          exact ⟨c, hd, Or.inl (by simp [hs])⟩
        · intro p2 q _ hq
          rw [h1] at hq
          simp at hq
      | none =>
        by_cases hge : s.m.maxWrites ≤ AddInt64 c.writes 1
        · refine ⟨by simp, ?_, ?_⟩
          · intro p2 hp2 _
            simp only [Option.some.injEq] at hp2
            subst hp2
            exact ⟨c, hd, Or.inr ⟨hs, hge⟩⟩
          · intro p2 q _ hq
            have h1 : s1.m.conn = none := by
              by_cases hroom : s.m.reset.length < resetCap
              · simp [Write, State.LoadPointer, hc, hd, hs, WriteResult.memory, State.record,
                  State.StorePointer, State.canSignal, State.signal, State.setCell, hroom,
                  hge] at h
                subst h; rfl
              · simp [Write, State.LoadPointer, hc, hd, hs, WriteResult.memory, State.record,
                  State.StorePointer, State.canSignal, State.signal, State.setCell, hroom,
                  hge] at h
                subst h; rfl
            rw [h1] at hq
            simp at hq
        · have h1 : s1.m.conn = some p := by
            simp [Write, State.LoadPointer, hc, hd, hs, WriteResult.memory, State.record,
              State.setCell, hge] at h
            subst h; exact hc
          refine ⟨by simp, ?_, ?_⟩
          · intro p2 _ hn
            rw [h1] at hn
            simp at hn
          · intro p2 q hp2 hq
            rw [h1] at hq
            simp only [Option.some.injEq] at hp2 hq
            omega

/-- What a reconciliation cycle does to the reference: it installs a
connection only after a successful `Connect`, and it leaves an installed
connection in place. -/
theorem cycle_transitions (W : World) (w : Wake) (s s1 : State)
    (h : maintainConnCycle W w s = some s1) :
    (s.m.conn = none → s1.m.conn ≠ none → ∃ r, W.Connect s.trace = .ok r)
      ∧ (∀ p, s.m.conn = some p → s1.m.conn = some p) := by
  unfold maintainConnCycle at h
  cases hw : checkConnectionTimer w s with
  | none => simp [hw] at h
  | some s2 =>
    obtain ⟨k1, _, _, k4⟩ := checkConnectionTimer_frame w s s2 hw
    simp only [hw, Option.map_some', Option.some.injEq] at h
    subst h
    constructor
    · intro hn hne
      have hn2 : s2.m.conn = none := by rw [k1, hn]
      rw [← k4]
      cases hC : W.Connect s2.trace with
      | ok r => exact ⟨r, rfl⟩
      | error e =>
        exfalso
        apply hne
        simp [maintainConnBody, State.LoadPointer, hn2, hC, State.record]
    · intro p hp
      have hp2 : s2.m.conn = some p := by rw [k1, hp]
      rw [maintainConnBody_of_installed W s2 p hp2]
      exact hp2

/-- C9: every change of the reference made by one operation is one of the
two stated transitions.  A `Write` (returned or parked) never turns nil
into a connection; it turns a connection into nil only if its send failed
or the incremented counter reached `maxWrites`; a reconciliation cycle
turns nil into a connection only if `Connect` succeeded and never clears
an installed connection; and no operation replaces an installed connection
by a different one. -/
theorem C9_only_two_transitions (W : World) (s : State) :
    (∀ b s1, (Write W s b).memory = some s1 →
        (s.m.conn = none → s1.m.conn = none)
          ∧ (∀ p, s.m.conn = some p → s1.m.conn = none →
              ∃ c, s.deref p = some c
                ∧ (W.Send s.trace c.client b ≠ none
                    ∨ (W.Send s.trace c.client b = none
                        ∧ s.m.maxWrites ≤ AddInt64 c.writes 1)))
          ∧ (∀ p q, s.m.conn = some p → s1.m.conn = some q → q = p))
      ∧ (∀ w s1, maintainConnCycle W w s = some s1 →
          (s.m.conn = none → s1.m.conn ≠ none → ∃ r, W.Connect s.trace = .ok r)
            ∧ (∀ p, s.m.conn = some p → s1.m.conn = some p))
      ∧ (∀ s1, maintainConnPrologue s = some s1 → s1.m.conn = s.m.conn) :=
  ⟨fun b s1 h => Write_transitions W s b s1 h,
    fun w s1 h => cycle_transitions W w s s1 h,
    fun s1 h => by
      unfold maintainConnPrologue at h
      split at h
      · simp only [Option.some.injEq] at h
        subst h; rfl
      · simp at h⟩

/-- Witness of C9: a failing send turns the installed connection into nil,
and a cycle on a new manager installs one because `Connect` succeeded. -/
theorem C9_only_two_transitions_witness :
    (∃ c, (oneConn 5 []).deref 0 = some c
        ∧ (failingWorld.Send (oneConn 5 []).trace c.client [1] ≠ none
            ∨ (failingWorld.Send (oneConn 5 []).trace c.client [1] = none
                ∧ (oneConn 5 []).m.maxWrites ≤ AddInt64 c.writes 1)))
      ∧ ∃ r, healthyWorld.Connect (NewConnManager 5).trace = .ok r :=
  ⟨((C9_only_two_transitions failingWorld (oneConn 5 [])).1 [1]
      ((((oneConn 5 []).record (.send 0 3 [1])).StorePointer none).record (.close 0 7)).signal
      rfl).2.1 0 rfl rfl,
    ((C9_only_two_transitions healthyWorld (NewConnManager 5)).2.1 .ticker
      (maintainConnBody healthyWorld (NewConnManager 5)) rfl).1 rfl (by decide)⟩

/-! ## The counter invariant of sequential runs -/

theorem CounterInv_init (N : Int) : CounterInv N (NewConnManager N) := by
  refine ⟨rfl, ?_⟩
  intro p hp
  simp [NewConnManager] at hp

theorem CounterInv_Write (W : World) (N : Int) (hint : IsInt64 N)
    (s s1 : State) (b : Batch) (err : Option GoError)
    (hinv : CounterInv N s) (h : Write W s b = .returned err s1) : CounterInv N s1 := by
  obtain ⟨hmax, hcell⟩ := hinv
  cases hc : s.m.conn with
  | none =>
    rw [Write_of_absent W s b hc] at h
    injection h with _ h2
    subst h2
    exact ⟨hmax, hcell⟩
  | some p =>
    obtain ⟨c, hd, h0, hlt⟩ := hcell p hc
    have hp := deref_lt s p c hd
    cases hs : W.Send s.trace c.client b with
    | some e =>
      by_cases hroom : s.m.reset.length < resetCap
      · simp [Write, State.LoadPointer, hc, hd, hs, State.record, State.StorePointer,
          State.canSignal, State.signal, hroom] at h
        obtain ⟨_, h2⟩ := h
        subst h2
        exact ⟨hmax, by intro q hq; simp at hq⟩
      · simp [Write, State.LoadPointer, hc, hd, hs, State.record, State.StorePointer,
          State.canSignal, State.signal, hroom] at h
    | none =>
      have hadd : AddInt64 c.writes 1 = c.writes + 1 :=
        AddInt64_one c.writes N h0 hlt hint
      by_cases hge : s.m.maxWrites ≤ c.writes + 1
      · by_cases hroom : s.m.reset.length < resetCap
        · simp [Write, State.LoadPointer, hc, hd, hs, State.record, State.StorePointer,
            State.canSignal, State.signal, State.setCell, hroom, hadd, hge] at h
          obtain ⟨_, h2⟩ := h
          subst h2
          exact ⟨hmax, by intro q hq; simp at hq⟩
        · simp [Write, State.LoadPointer, hc, hd, hs, State.record, State.StorePointer,
            State.canSignal, State.signal, State.setCell, hroom, hadd, hge] at h
      · simp [Write, State.LoadPointer, hc, hd, hs, State.record, State.setCell, hadd,
          hge] at h
        obtain ⟨_, h2⟩ := h
        subst h2
        refine ⟨hmax, ?_⟩
        intro q hq
        have hqp : q = p := by
          simp only [hc, Option.some.injEq] at hq
          exact hq.symm
        subst hqp
        refine ⟨{ c with writes := c.writes + 1 }, by simp [State.deref, hp], ?_, ?_⟩
        · show 0 ≤ c.writes + 1
          omega
        · show c.writes + 1 < N
          omega

theorem CounterInv_cycle (W : World) (N : Int) (hN : 0 < N) (w : Wake) (s s1 : State)
    (hinv : CounterInv N s) (h : maintainConnCycle W w s = some s1) : CounterInv N s1 := by
  obtain ⟨hmax, hcell⟩ := hinv
  unfold maintainConnCycle at h
  cases hw : checkConnectionTimer w s with
  | none => simp [hw] at h
  | some s2 =>
    obtain ⟨k1, k2, k3, _⟩ := checkConnectionTimer_frame w s s2 hw
    simp only [hw, Option.map_some', Option.some.injEq] at h
    subst h
    have hinv2 : CounterInv N s2 := by
      refine ⟨by rw [k2, hmax], ?_⟩
      intro p hp
      rw [k1] at hp
      obtain ⟨c, hd, h0, hlt⟩ := hcell p hp
      exact ⟨c, by simpa [State.deref, k3] using hd, h0, hlt⟩
    cases hc : s2.m.conn with
    | some p =>
      rw [maintainConnBody_of_installed W s2 p hc]
      exact hinv2
    | none =>
      cases hC : W.Connect s2.trace with
      | error e =>
        simp only [maintainConnBody, State.LoadPointer, hc, hC]
        refine ⟨hinv2.1, ?_⟩
        intro p hp
        simp [State.record, hc] at hp
      | ok r =>
        obtain ⟨closer, client⟩ := r
        simp only [maintainConnBody, State.LoadPointer, hc, hC]
        refine ⟨hinv2.1, ?_⟩
        intro p hp
        simp only [State.record, State.alloc, State.StorePointer, Option.some.injEq] at hp
        subst hp
        exact ⟨{ name := W.connectorName, client := client, closer := closer, writes := 0 },
          by simp [State.record, State.alloc, State.StorePointer, State.deref],
          le_refl _, hN⟩

theorem CounterInv_runOps (W : World) (N : Int) (hN : 0 < N) (hint : IsInt64 N)
    (ops : List Op) :
    ∀ s s1 : State, CounterInv N s → runOps W s ops = some s1 → CounterInv N s1 := by
  induction ops with
  | nil =>
    intro s s1 hinv h
    simp only [runOps, Option.some.injEq] at h
    subst h
    exact hinv
  | cons op ops ih =>
    intro s s1 hinv h
    simp only [runOps] at h
    cases ha : applyOp W s op with
    | none => simp [ha] at h
    | some s2 =>
      simp only [ha] at h
      apply ih s2 s1 _ h
      cases op with
      | prologue =>
        simp only [applyOp, maintainConnPrologue] at ha
        split at ha
        · simp only [Option.some.injEq] at ha
          subst ha
          exact hinv
        · simp at ha
      | write b =>
        simp only [applyOp] at ha
        cases hW : Write W s b with
        | returned err s3 =>
          simp only [hW, Option.some.injEq] at ha
          subst ha
          exact CounterInv_Write W N hint s s3 b err hinv hW
        | blocked ret s3 => simp [hW] at ha
        | fault => simp [hW] at ha
      | cycle w =>
        exact CounterInv_cycle W N hN w s s2 hinv ha

/-- C10: with `0 < maxWrites` (an `int64`), in every memory reached from a
new manager by a sequential run of the prologue, writes and reconciliation
cycles, an installed connection has a counter `w` with `0 ≤ w < maxWrites`;
and a send issued by a `Write` from such a memory goes through a connection
whose counter is below `maxWrites` at that moment. -/
theorem C10_counter_below_threshold (W : World) (N : Int) (hN : 0 < N) (hint : IsInt64 N)
    (ops : List Op) (s : State) (hrun : runOps W (NewConnManager N) ops = some s) :
    s.m.maxWrites = N
      ∧ (∀ p, s.m.conn = some p → ∃ c, s.deref p = some c ∧ 0 ≤ c.writes ∧ c.writes < N)
      ∧ ∀ b s1 q, (Write W s b).memory = some s1 → sendCount q s1.trace ≠ sendCount q s.trace →
          ∃ c, s.deref q = some c ∧ 0 ≤ c.writes ∧ c.writes < N := by
  have hinv := CounterInv_runOps W N hN hint ops (NewConnManager N) s (CounterInv_init N) hrun
  refine ⟨hinv.1, hinv.2, ?_⟩
  intro b s1 q h hne
  cases hc : s.m.conn with
  | none =>
    rw [Write_of_absent W s b hc] at h
    simp only [WriteResult.memory, Option.some.injEq] at h
    subst h
    exact absurd rfl hne
  | some p =>
    obtain ⟨c, hd, h0, hlt⟩ := hinv.2 p hc
    by_cases hqp : q = p
    · subst hqp
      exact ⟨c, hd, h0, hlt⟩
    · exfalso
      apply hne
      have htr : ∃ tl, s1.trace = s.trace ++ Event.send p c.client b :: tl
          ∧ sendCount q tl = 0 := by
        cases hs : W.Send s.trace c.client b with
        | some e =>
          by_cases hroom : s.m.reset.length < resetCap
          · simp [Write, State.LoadPointer, hc, hd, hs, State.record, State.StorePointer,
              State.canSignal, State.signal, hroom, WriteResult.memory] at h
            subst h
            exact ⟨[.close p c.closer], by simp, by simp [sendCount]⟩
          · simp [Write, State.LoadPointer, hc, hd, hs, State.record, State.StorePointer,
              State.canSignal, State.signal, hroom, WriteResult.memory] at h
            subst h
            exact ⟨[.close p c.closer], by simp, by simp [sendCount]⟩
        | none =>
          by_cases hge : s.m.maxWrites ≤ AddInt64 c.writes 1
          · by_cases hroom : s.m.reset.length < resetCap
            · simp [Write, State.LoadPointer, hc, hd, hs, State.record, State.StorePointer,
                State.canSignal, State.signal, State.setCell, hroom, hge,
                WriteResult.memory] at h
              subst h
              exact ⟨[.close p c.closer], by simp, by simp [sendCount]⟩
            · simp [Write, State.LoadPointer, hc, hd, hs, State.record, State.StorePointer,
                State.canSignal, State.signal, State.setCell, hroom, hge,
                WriteResult.memory] at h
              subst h
              exact ⟨[.close p c.closer], by simp, by simp [sendCount]⟩
          · simp [Write, State.LoadPointer, hc, hd, hs, State.record, State.setCell, hge,
              WriteResult.memory] at h
            subst h
            exact ⟨[], by simp, by simp [sendCount]⟩
      obtain ⟨tl, h1, h2⟩ := htr
      rw [h1]
      have hne2 : ¬ (p = q) := fun hh => hqp hh.symm
      simp only [sendCount, List.filter_append, List.length_append, List.filter_cons] at h2 ⊢
      simp [hne2, h2]

/-- Witness of C10 on the run `shortRun`, which ends with the second
connection installed. -/
theorem C10_counter_below_threshold_witness :
    runOps healthyWorld (NewConnManager 2) shortRun
        = some ((runOps healthyWorld (NewConnManager 2) shortRun).getD (NewConnManager 2))
      ∧ ((runOps healthyWorld (NewConnManager 2) shortRun).getD (NewConnManager 2)).m.conn
          = some 1
      ∧ ∀ p, ((runOps healthyWorld (NewConnManager 2) shortRun).getD
            (NewConnManager 2)).m.conn = some p →
          ∃ c, ((runOps healthyWorld (NewConnManager 2) shortRun).getD
              (NewConnManager 2)).deref p = some c ∧ 0 ≤ c.writes ∧ c.writes < 2 :=
  ⟨by decide, by decide,
    (C10_counter_below_threshold healthyWorld 2 (by decide) (by decide) shortRun
      ((runOps healthyWorld (NewConnManager 2) shortRun).getD (NewConnManager 2))
      (by decide)).2.1⟩

/-! ## Interleaved execution: the clear step and the closer -/

/-- C6 as stated fails.  After `raceSchedule` the first call of `Write`
holds the connection at address 0 and is about to execute its clear step,
while the reference points at the later connection at address 1; the
clear step makes the reference nil, and the closer of the connection at
address 1 was never invoked. -/
theorem C6_counterexample_clear_clobbers :
    Sys.run failingWorld (Sys.init 5) raceSchedule = some raceState
      ∧ raceState.writers[0]?
          = some { envelopes := [1], pc := .storeErr, conn := some 0, err := some "boom" }
      ∧ raceState.mem.m.conn = some 1
      ∧ (Sys.step failingWorld raceState (.writer 0)).map (fun σ => σ.mem.m.conn) = some none
      ∧ (Sys.step failingWorld raceState (.writer 0)).map
          (fun σ => closeCount 1 σ.mem.trace) = some 0 := by
  refine ⟨by decide, by decide, by decide, by decide, by decide⟩

/-- C6, as amended: the clear step of a tearing-down `Write` is an
unconditional store of nil.  Whatever the reference holds when the step
runs (the loaded connection, a different one, or nil), the step completes,
the reference is nil afterwards, and nothing else in memory changes: no
closer is invoked by this step and no heap cell is touched. -/
theorem C6_clear_is_unconditional (W : World) (s : State) (t : Writer)
    (hpc : t.pc = .storeErr ∨ t.pc = .storeMax) :
    ∃ t1, stepWrite W s t = some (s.StorePointer none, t1)
      ∧ (t1.pc = .closeErr ∨ t1.pc = .closeMax)
      ∧ t1.conn = t.conn
      ∧ (s.StorePointer none).m.conn = none
      ∧ (s.StorePointer none).heap = s.heap
      ∧ (s.StorePointer none).trace = s.trace
      ∧ (s.StorePointer none).m.reset = s.m.reset := by
  rcases hpc with h | h
  · exact ⟨{ t with pc := .closeErr }, by simp [stepWrite, h], Or.inl rfl, rfl, rfl, rfl,
      rfl, rfl⟩
  · exact ⟨{ t with pc := .closeMax }, by simp [stepWrite, h], Or.inr rfl, rfl, rfl, rfl,
      rfl, rfl⟩

/-- Witness of C6 in the memory reached by `raceSchedule`, where the
reference holds a connection other than the one the call loaded. -/
theorem C6_clear_is_unconditional_witness :
    raceState.mem.m.conn = some 1
      ∧ ∃ t1, stepWrite failingWorld raceState.mem
            { envelopes := [1], pc := .storeErr, conn := some 0, err := some "boom" }
          = some (raceState.mem.StorePointer none, t1)
        ∧ (t1.pc = .closeErr ∨ t1.pc = .closeMax)
        ∧ t1.conn = some 0
        ∧ (raceState.mem.StorePointer none).m.conn = none
        ∧ (raceState.mem.StorePointer none).heap = raceState.mem.heap
        ∧ (raceState.mem.StorePointer none).trace = raceState.mem.trace
        ∧ (raceState.mem.StorePointer none).m.reset = raceState.mem.m.reset :=
  ⟨by decide, C6_clear_is_unconditional failingWorld raceState.mem
    { envelopes := [1], pc := .storeErr, conn := some 0, err := some "boom" } (Or.inl rfl)⟩

theorem countP_set_of_getElem? {α : Type} (q : α → Bool) :
    ∀ (l : List α) (i : Nat) (x y : α), l[i]? = some x →
      (l.set i y).countP q + (if q x then 1 else 0)
        = l.countP q + (if q y then 1 else 0) := by
  intro l
  induction l with
  | nil => intro i x y h; simp at h
  | cons z l ih =>
    intro i x y h
    cases i with
    | zero =>
      simp only [List.getElem?_cons_zero, Option.some.injEq] at h
      subst h
      simp only [List.set_cons_zero, List.countP_cons]
      omega
    | succ i =>
      simp only [List.getElem?_cons_succ] at h
      have := ih i x y h
      simp only [List.set_cons_succ, List.countP_cons]
      omega

/-- One atomic step of a call of `Write` either adds no close of `a` and
keeps the call past its close if it was, or adds exactly one close of `a`
and moves the call from before to past its close. -/
theorem stepWrite_close (W : World) (a : Nat) (s s1 : State) (t t1 : Writer)
    (h : stepWrite W s t = some (s1, t1)) :
    (closeCount a s1.trace = closeCount a s.trace
        ∧ (t.pastClose a = true → t1.pastClose a = true))
      ∨ (closeCount a s1.trace = closeCount a s.trace + 1
        ∧ t.pastClose a = false ∧ t1.pastClose a = true) := by
  obtain ⟨b, pc, conn, err⟩ := t
  cases pc with
  | load =>
    left
    simp only [stepWrite, State.LoadPointer] at h
    cases hc : s.m.conn with
    | none =>
      simp only [hc, Option.some.injEq, Prod.mk.injEq] at h
      obtain ⟨h1, h2⟩ := h
      subst h1 h2
      exact ⟨rfl, by simp [Writer.pastClose]⟩
    | some p =>
      simp only [hc, Option.some.injEq, Prod.mk.injEq] at h
      obtain ⟨h1, h2⟩ := h
      subst h1 h2
      exact ⟨rfl, by simp [Writer.pastClose]⟩
  | send =>
    left
    cases conn with
    | none => simp [stepWrite] at h
    | some p =>
      simp only [stepWrite] at h
      cases hd : s.deref p with
      | none => simp [hd] at h
      | some c =>
        simp only [hd] at h
        cases hs : W.Send s.trace c.client b with
        | none =>
          simp only [hs, Option.some.injEq, Prod.mk.injEq] at h
          obtain ⟨h1, h2⟩ := h
          subst h1 h2
          exact ⟨by simp [State.record], by simp [Writer.pastClose]⟩
        | some e =>
          simp only [hs, Option.some.injEq, Prod.mk.injEq] at h
          obtain ⟨h1, h2⟩ := h
          subst h1 h2
          exact ⟨by simp [State.record], by simp [Writer.pastClose]⟩
  | storeErr =>
    left
    simp only [stepWrite, Option.some.injEq, Prod.mk.injEq] at h
    obtain ⟨h1, h2⟩ := h
    subst h1 h2
    exact ⟨rfl, by simp [Writer.pastClose]⟩
  | closeErr =>
    cases conn with
    | none => simp [stepWrite] at h
    | some p =>
      simp only [stepWrite] at h
      cases hd : s.deref p with
      | none => simp [hd] at h
      | some c =>
        simp only [hd, Option.some.injEq, Prod.mk.injEq] at h
        obtain ⟨h1, h2⟩ := h
        subst h1 h2
        by_cases hpa : p = a
        · right
          subst hpa
          exact ⟨by simp [State.record], by simp [Writer.pastClose],
            by simp [Writer.pastClose]⟩
        · left
          exact ⟨by simp [State.record, hpa], by simp [Writer.pastClose, hpa]⟩
  | signalErr =>
    left
    simp only [stepWrite] at h
    split at h
    · simp only [Option.some.injEq, Prod.mk.injEq] at h
      obtain ⟨h1, h2⟩ := h
      subst h1 h2
      exact ⟨rfl, by simp [Writer.pastClose]⟩
    · simp at h
  | add =>
    left
    cases conn with
    | none => simp [stepWrite] at h
    | some p =>
      simp only [stepWrite] at h
      cases hd : s.deref p with
      | none => simp [hd] at h
      | some c =>
        simp only [hd] at h
        split at h
        · simp only [Option.some.injEq, Prod.mk.injEq] at h
          obtain ⟨h1, h2⟩ := h
          subst h1 h2
          exact ⟨rfl, by simp [Writer.pastClose]⟩
        · simp only [Option.some.injEq, Prod.mk.injEq] at h
          obtain ⟨h1, h2⟩ := h
          subst h1 h2
          exact ⟨rfl, by simp [Writer.pastClose]⟩
  | storeMax =>
    left
    simp only [stepWrite, Option.some.injEq, Prod.mk.injEq] at h
    obtain ⟨h1, h2⟩ := h
    subst h1 h2
    exact ⟨rfl, by simp [Writer.pastClose]⟩
  | closeMax =>
    cases conn with
    | none => simp [stepWrite] at h
    | some p =>
      simp only [stepWrite] at h
      cases hd : s.deref p with
      | none => simp [hd] at h
      | some c =>
        simp only [hd, Option.some.injEq, Prod.mk.injEq] at h
        obtain ⟨h1, h2⟩ := h
        subst h1 h2
        by_cases hpa : p = a
        · right
          subst hpa
          exact ⟨by simp [State.record], by simp [Writer.pastClose],
            by simp [Writer.pastClose]⟩
        · left
          exact ⟨by simp [State.record, hpa], by simp [Writer.pastClose, hpa]⟩
  | signalMax =>
    left
    simp only [stepWrite] at h
    split at h
    · simp only [Option.some.injEq, Prod.mk.injEq] at h
      obtain ⟨h1, h2⟩ := h
      subst h1 h2
      exact ⟨rfl, by simp [Writer.pastClose]⟩
    · simp at h
  | done => simp [stepWrite] at h

/-- The reconciliation goroutine never invokes a closer. -/
theorem stepMaintain_close (W : World) (a : Nat) (w : Wake) (s s1 : State) (pc pc1 : BgPc)
    (h : stepMaintain W w s pc = some (s1, pc1)) :
    closeCount a s1.trace = closeCount a s.trace := by
  cases pc with
  | prologue =>
    simp only [stepMaintain] at h
    split at h
    · simp only [Option.some.injEq, Prod.mk.injEq] at h
      rw [← h.1]; rfl
    · simp at h
  | wait =>
    simp only [stepMaintain] at h
    cases hw : checkConnectionTimer w s with
    | none => simp [hw] at h
    | some s2 =>
      simp only [hw, Option.map_some', Option.some.injEq, Prod.mk.injEq] at h
      rw [← h.1, (checkConnectionTimer_frame w s s2 hw).2.2.2]
  | load =>
    simp only [stepMaintain, State.LoadPointer] at h
    cases hc : s.m.conn with
    | none =>
      simp only [hc, Option.some.injEq, Prod.mk.injEq] at h
      rw [← h.1]
    | some p =>
      simp only [hc, Option.some.injEq, Prod.mk.injEq] at h
      rw [← h.1]
  | dial =>
    simp only [stepMaintain] at h
    cases hC : W.Connect s.trace with
    | error e =>
      simp only [hC, Option.some.injEq, Prod.mk.injEq] at h
      rw [← h.1]; simp [State.record]
    | ok r =>
      simp only [hC, Option.some.injEq, Prod.mk.injEq] at h
      rw [← h.1]; simp [State.record]
  | store closer client =>
    simp only [stepMaintain, Option.some.injEq, Prod.mk.injEq] at h
    rw [← h.1]; rfl

/-- The invariant of interleaved execution: closes of `a` are covered by
calls of `Write` that are past their close of `a`. -/
theorem Sys_step_close (W : World) (a : Nat) (σ σ1 : Sys) (act : Act)
    (hinv : closeCount a σ.mem.trace ≤ σ.writers.countP (Writer.pastClose a))
    (h : Sys.step W σ act = some σ1) :
    closeCount a σ1.mem.trace ≤ σ1.writers.countP (Writer.pastClose a) := by
  cases act with
  | call b =>
    simp only [Sys.step, Option.some.injEq] at h
    subst h
    simp only [List.countP_append]
    omega
  | writer i =>
    simp only [Sys.step] at h
    cases ht : σ.writers[i]? with
    | none => simp [ht] at h
    | some t =>
      simp only [ht] at h
      cases hst : stepWrite W σ.mem t with
      | none => simp [hst] at h
      | some r =>
        obtain ⟨s1, t1⟩ := r
        simp only [hst, Option.some.injEq] at h
        subst h
        have hset := countP_set_of_getElem? (Writer.pastClose a) σ.writers i t t1 ht
        show closeCount a s1.trace ≤ (σ.writers.set i t1).countP (Writer.pastClose a)
        rcases stepWrite_close W a σ.mem s1 t t1 hst with ⟨k1, k2⟩ | ⟨k1, k2, k3⟩
        · rw [k1]
          by_cases hpt : t.pastClose a = true
          · rw [if_pos hpt, if_pos (k2 hpt)] at hset
            omega
          · rw [if_neg hpt] at hset
            split at hset <;> omega
        · rw [k1]
          rw [k2, k3] at hset
          simp only [Bool.false_eq_true, if_false, if_true] at hset
          omega
  | maintain w =>
    simp only [Sys.step] at h
    cases hm : stepMaintain W w σ.mem σ.bg with
    | none => simp [hm] at h
    | some r =>
      obtain ⟨s1, pc1⟩ := r
      simp only [hm, Option.map_some', Option.some.injEq] at h
      subst h
      show closeCount a s1.trace ≤ σ.writers.countP (Writer.pastClose a)
      rw [stepMaintain_close W a w σ.mem s1 σ.bg pc1 hm]
      exact hinv

theorem Sys_run_close (W : World) (a : Nat) (acts : List Act) :
    ∀ σ σ1 : Sys, closeCount a σ.mem.trace ≤ σ.writers.countP (Writer.pastClose a) →
      Sys.run W σ acts = some σ1 →
      closeCount a σ1.mem.trace ≤ σ1.writers.countP (Writer.pastClose a) := by
  induction acts with
  | nil =>
    intro σ σ1 hinv h
    simp only [Sys.run, Option.some.injEq] at h
    subst h
    exact hinv
  | cons act acts ih =>
    intro σ σ1 hinv h
    simp only [Sys.run] at h
    cases hs : Sys.step W σ act with
    | none => simp [hs] at h
    | some σ2 =>
      simp only [hs] at h
      exact ih σ2 σ1 (Sys_step_close W a σ σ2 act hinv hs) h

theorem closeCount_send_close (a p cl k : Nat) (b : Batch) (tr : List Event) :
    closeCount a (tr ++ [Event.send p cl b, Event.close p k])
      = closeCount a tr + if p = a then 1 else 0 := by
  have hsplit : [Event.send p cl b, Event.close p k]
      = [Event.send p cl b] ++ [Event.close p k] := rfl
  rw [hsplit, closeCount_append, closeCount_append, closeCount_send, closeCount_close]
  omega

/-- What a completed or parked `Write` on an installed connection does to
the heap size, the reference and the number of closes. -/
theorem Write_close_effect (W : World) (s s1 : State) (b : Batch) (p : Nat)
    (hc : s.m.conn = some p) (h : (Write W s b).memory = some s1) :
    s1.heap.length = s.heap.length
      ∧ ((s1.m.conn = some p ∧ ∀ a, closeCount a s1.trace = closeCount a s.trace)
        ∨ (s1.m.conn = none
          ∧ ∀ a, closeCount a s1.trace = closeCount a s.trace + if p = a then 1 else 0)) := by
  cases hd : s.deref p with
  | none => simp [Write, State.LoadPointer, hc, hd, WriteResult.memory] at h
  | some c =>
    cases hs : W.Send s.trace c.client b with
    | some e =>
      by_cases hroom : s.m.reset.length < resetCap
      · simp [Write, State.LoadPointer, hc, hd, hs, WriteResult.memory, State.record,
          State.StorePointer, State.canSignal, State.signal, hroom] at h
        subst h
        exact ⟨rfl, Or.inr ⟨rfl, fun a =>
          closeCount_send_close a p c.client c.closer b s.trace⟩⟩
      · simp [Write, State.LoadPointer, hc, hd, hs, WriteResult.memory, State.record,
          State.StorePointer, State.canSignal, State.signal, hroom] at h
        subst h
        exact ⟨rfl, Or.inr ⟨rfl, fun a =>
          closeCount_send_close a p c.client c.closer b s.trace⟩⟩
    | none =>
      by_cases hge : s.m.maxWrites ≤ AddInt64 c.writes 1
      · by_cases hroom : s.m.reset.length < resetCap
        · simp [Write, State.LoadPointer, hc, hd, hs, WriteResult.memory, State.record,
            State.StorePointer, State.canSignal, State.signal, State.setCell, hroom,
            hge] at h
          subst h
          exact ⟨by simp, Or.inr ⟨rfl, fun a =>
          closeCount_send_close a p c.client c.closer b s.trace⟩⟩
        · simp [Write, State.LoadPointer, hc, hd, hs, WriteResult.memory, State.record,
            State.StorePointer, State.canSignal, State.signal, State.setCell, hroom,
            hge] at h
          subst h
          exact ⟨by simp, Or.inr ⟨rfl, fun a =>
          closeCount_send_close a p c.client c.closer b s.trace⟩⟩
      · simp [Write, State.LoadPointer, hc, hd, hs, WriteResult.memory, State.record,
          State.setCell, hge] at h
        subst h
        exact ⟨by simp, Or.inl ⟨hc, by intro a; simp [closeCount]⟩⟩

theorem OnceInv_Write (W : World) (s s1 : State) (b : Batch)
    (hinv : OnceInv s) (h : (Write W s b).memory = some s1) : OnceInv s1 := by
  cases hc : s.m.conn with
  | none =>
    rw [Write_of_absent W s b hc] at h
    simp only [WriteResult.memory, Option.some.injEq] at h
    subst h
    exact hinv
  | some p =>
    obtain ⟨hlen, hcase⟩ := Write_close_effect W s s1 b p hc h
    obtain ⟨hp0, hplt⟩ := (hinv p).2.2 hc
    intro a
    obtain ⟨i1, i2, i3⟩ := hinv a
    rcases hcase with ⟨k1, k2⟩ | ⟨k1, k2⟩
    · rw [k2 a, hlen, k1, ← hc]
      exact ⟨i1, i2, i3⟩
    · rw [k2 a, hlen, k1]
      by_cases hpa : p = a
      · subst hpa
        simp only [if_true]
        refine ⟨by omega, ?_, by simp⟩
        intro hle
        omega
      · simp only [hpa, if_false, Nat.add_zero]
        exact ⟨i1, i2, by simp⟩

theorem OnceInv_cycle (W : World) (w : Wake) (s s1 : State)
    (hinv : OnceInv s) (h : maintainConnCycle W w s = some s1) : OnceInv s1 := by
  unfold maintainConnCycle at h
  cases hw : checkConnectionTimer w s with
  | none => simp [hw] at h
  | some s2 =>
    obtain ⟨k1, _, k3, k4⟩ := checkConnectionTimer_frame w s s2 hw
    simp only [hw, Option.map_some', Option.some.injEq] at h
    subst h
    have hinv2 : OnceInv s2 := by
      intro a
      rw [k1, k3, k4]
      exact hinv a
    cases hc : s2.m.conn with
    | some p =>
      rw [maintainConnBody_of_installed W s2 p hc]
      exact hinv2
    | none =>
      cases hC : W.Connect s2.trace with
      | error e =>
        simp only [maintainConnBody, State.LoadPointer, hc, hC]
        intro a
        obtain ⟨i1, i2, _⟩ := hinv2 a
        refine ⟨by simpa [State.record] using i1, ?_, ?_⟩
        · intro hle
          simpa [State.record] using i2 (by simpa [State.record] using hle)
        · intro hca
          simp [State.record, hc] at hca
      | ok r =>
        obtain ⟨closer, client⟩ := r
        simp only [maintainConnBody, State.LoadPointer, hc, hC]
        intro a
        obtain ⟨i1, i2, _⟩ := hinv2 a
        refine ⟨by simpa [State.record, State.alloc, State.StorePointer] using i1, ?_, ?_⟩
        · intro hle
          have hle2 : s2.heap.length ≤ a := by
            simp [State.record, State.alloc, State.StorePointer] at hle
            omega
          simpa [State.record, State.alloc, State.StorePointer] using i2 hle2
        · intro hca
          simp only [State.record, State.alloc, State.StorePointer, Option.some.injEq] at hca
          subst hca
          refine ⟨?_, by simp [State.record, State.alloc, State.StorePointer]⟩
          simpa [State.record, State.alloc, State.StorePointer] using i2 (le_refl _)

theorem OnceInv_runOps (W : World) (ops : List Op) :
    ∀ s s1 : State, OnceInv s → runOps W s ops = some s1 → OnceInv s1 := by
  induction ops with
  | nil =>
    intro s s1 hinv h
    simp only [runOps, Option.some.injEq] at h
    subst h
    exact hinv
  | cons op ops ih =>
    intro s s1 hinv h
    simp only [runOps] at h
    cases ha : applyOp W s op with
    | none => simp [ha] at h
    | some s2 =>
      simp only [ha] at h
      apply ih s2 s1 _ h
      cases op with
      | prologue =>
        simp only [applyOp, maintainConnPrologue] at ha
        split at ha
        · simp only [Option.some.injEq] at ha
          subst ha
          exact hinv
        · simp at ha
      | write b =>
        simp only [applyOp] at ha
        cases hW : Write W s b with
        | returned err s3 =>
          simp only [hW, Option.some.injEq] at ha
          subst ha
          exact OnceInv_Write W s s3 b hinv (by rw [hW]; rfl)
        | blocked ret s3 => simp [hW] at ha
        | fault => simp [hW] at ha
      | cycle w =>
        exact OnceInv_cycle W w s s2 hinv ha

/-- The exact effect of one atomic step of a call of `Write` on the closes
of `a`: one more if the call stands at its close step holding `a`, none
otherwise; and after a close step the call is past its close. -/
theorem stepWrite_close_exact (W : World) (a : Nat) (s s1 : State) (t t1 : Writer)
    (h : stepWrite W s t = some (s1, t1)) :
    closeCount a s1.trace = closeCount a s.trace + (if t.atClose a = true then 1 else 0)
      ∧ (t.atClose a = true → t1.pastClose a = true) := by
  obtain ⟨b, pc, conn, err⟩ := t
  cases pc with
  | load =>
    simp only [stepWrite, State.LoadPointer] at h
    cases hc : s.m.conn with
    | none =>
      simp only [hc, Option.some.injEq, Prod.mk.injEq] at h
      obtain ⟨h1, h2⟩ := h
      subst h1 h2
      simp [Writer.atClose]
    | some p =>
      simp only [hc, Option.some.injEq, Prod.mk.injEq] at h
      obtain ⟨h1, h2⟩ := h
      subst h1 h2
      simp [Writer.atClose]
  | send =>
    cases conn with
    | none => simp [stepWrite] at h
    | some p =>
      simp only [stepWrite] at h
      cases hd : s.deref p with
      | none => simp [hd] at h
      | some c =>
        simp only [hd] at h
        cases hs : W.Send s.trace c.client b with
        | none =>
          simp only [hs, Option.some.injEq, Prod.mk.injEq] at h
          obtain ⟨h1, h2⟩ := h
          subst h1 h2
          simp [Writer.atClose, State.record]
        | some e =>
          simp only [hs, Option.some.injEq, Prod.mk.injEq] at h
          obtain ⟨h1, h2⟩ := h
          subst h1 h2
          simp [Writer.atClose, State.record]
  | storeErr =>
    simp only [stepWrite, Option.some.injEq, Prod.mk.injEq] at h
    obtain ⟨h1, h2⟩ := h
    subst h1 h2
    simp [Writer.atClose, State.StorePointer]
  | closeErr =>
    cases conn with
    | none => simp [stepWrite] at h
    | some p =>
      simp only [stepWrite] at h
      cases hd : s.deref p with
      | none => simp [hd] at h
      | some c =>
        simp only [hd, Option.some.injEq, Prod.mk.injEq] at h
        obtain ⟨h1, h2⟩ := h
        subst h1 h2
        by_cases hpa : p = a
        · subst hpa
          simp [Writer.atClose, Writer.pastClose, State.record]
        · simp [Writer.atClose, State.record, hpa]
  | signalErr =>
    simp only [stepWrite] at h
    split at h
    · simp only [Option.some.injEq, Prod.mk.injEq] at h
      obtain ⟨h1, h2⟩ := h
      subst h1 h2
      simp [Writer.atClose, State.signal]
    · simp at h
  | add =>
    cases conn with
    | none => simp [stepWrite] at h
    | some p =>
      simp only [stepWrite] at h
      cases hd : s.deref p with
      | none => simp [hd] at h
      | some c =>
        simp only [hd] at h
        split at h
        · simp only [Option.some.injEq, Prod.mk.injEq] at h
          obtain ⟨h1, h2⟩ := h
          subst h1 h2
          simp [Writer.atClose, State.setCell]
        · simp only [Option.some.injEq, Prod.mk.injEq] at h
          obtain ⟨h1, h2⟩ := h
          subst h1 h2
          simp [Writer.atClose, State.setCell]
  | storeMax =>
    simp only [stepWrite, Option.some.injEq, Prod.mk.injEq] at h
    obtain ⟨h1, h2⟩ := h
    subst h1 h2
    simp [Writer.atClose, State.StorePointer]
  | closeMax =>
    cases conn with
    | none => simp [stepWrite] at h
    | some p =>
      simp only [stepWrite] at h
      cases hd : s.deref p with
      | none => simp [hd] at h
      | some c =>
        simp only [hd, Option.some.injEq, Prod.mk.injEq] at h
        obtain ⟨h1, h2⟩ := h
        subst h1 h2
        by_cases hpa : p = a
        · subst hpa
          simp [Writer.atClose, Writer.pastClose, State.record]
        · simp [Writer.atClose, State.record, hpa]
  | signalMax =>
    simp only [stepWrite] at h
    split at h
    · simp only [Option.some.injEq, Prod.mk.injEq] at h
      obtain ⟨h1, h2⟩ := h
      subst h1 h2
      simp [Writer.atClose, State.signal]
    · simp at h
  | done => simp [stepWrite] at h

/-- A call standing at its close step is not yet past it. -/
theorem atClose_not_pastClose (a : Nat) (t : Writer) (h : t.atClose a = true) :
    t.pastClose a = false := by
  obtain ⟨b, pc, conn, err⟩ := t
  cases pc <;> simp [Writer.atClose, Writer.pastClose] at h ⊢

/-- One scheduler action adds a close of `a` exactly when it makes a call
execute its close step on `a`. -/
theorem Sys_step_close_exact (W : World) (a : Nat) (σ σ1 : Sys) (act : Act)
    (h : Sys.step W σ act = some σ1) :
    closeCount a σ1.mem.trace
      = closeCount a σ.mem.trace + (closingCall σ a act).toList.length := by
  cases act with
  | call b =>
    simp only [Sys.step, Option.some.injEq] at h
    subst h
    simp [closingCall]
  | writer i =>
    simp only [Sys.step] at h
    cases ht : σ.writers[i]? with
    | none => simp [ht] at h
    | some t =>
      simp only [ht] at h
      cases hst : stepWrite W σ.mem t with
      | none => simp [hst] at h
      | some r =>
        obtain ⟨s1, t1⟩ := r
        simp only [hst, Option.some.injEq] at h
        subst h
        have hex := (stepWrite_close_exact W a σ.mem s1 t t1 hst).1
        show closeCount a s1.trace = _
        rw [hex]
        simp only [closingCall, ht]
        by_cases hat : t.atClose a = true
        · simp [hat]
        · simp [hat]
  | maintain w =>
    simp only [Sys.step] at h
    cases hm : stepMaintain W w σ.mem σ.bg with
    | none => simp [hm] at h
    | some r =>
      obtain ⟨s1, pc1⟩ := r
      simp only [hm, Option.map_some', Option.some.injEq] at h
      subst h
      show closeCount a s1.trace = _
      rw [stepMaintain_close W a w σ.mem s1 σ.bg pc1 hm]
      simp [closingCall]

/-- Along a schedule the closes of `a` grow by exactly the number of close
steps executed on `a`. -/
theorem Sys_run_close_exact (W : World) (a : Nat) (acts : List Act) :
    ∀ σ σ1 : Sys, Sys.run W σ acts = some σ1 →
      closeCount a σ1.mem.trace
        = closeCount a σ.mem.trace + (closers W a σ acts).length := by
  induction acts with
  | nil =>
    intro σ σ1 h
    simp only [Sys.run, Option.some.injEq] at h
    subst h
    simp [closers]
  | cons act acts ih =>
    intro σ σ1 h
    simp only [Sys.run] at h
    cases hs : Sys.step W σ act with
    | none => simp [hs] at h
    | some σ2 =>
      simp only [hs] at h
      rw [ih σ2 σ1 h, Sys_step_close_exact W a σ σ2 act hs]
      simp only [closers, hs, List.length_append]
      omega

/-- A call that is past its close of `a` stays so under every action. -/
theorem Sys_step_pastClose (W : World) (a : Nat) (σ σ1 : Sys) (act : Act) (i : Nat)
    (t : Writer) (h : Sys.step W σ act = some σ1) (ht : σ.writers[i]? = some t)
    (hp : t.pastClose a = true) :
    ∃ t1, σ1.writers[i]? = some t1 ∧ t1.pastClose a = true := by
  have hi : i < σ.writers.length := (List.getElem?_eq_some.mp ht).1
  cases act with
  | call b =>
    simp only [Sys.step, Option.some.injEq] at h
    subst h
    refine ⟨t, ?_, hp⟩
    show (σ.writers ++ [Writer.enter b])[i]? = some t
    rw [List.getElem?_append_left hi]
    exact ht
  | writer j =>
    simp only [Sys.step] at h
    cases htj : σ.writers[j]? with
    | none => simp [htj] at h
    | some tj =>
      simp only [htj] at h
      cases hst : stepWrite W σ.mem tj with
      | none => simp [hst] at h
      | some r =>
        obtain ⟨s1, t1⟩ := r
        simp only [hst, Option.some.injEq] at h
        subst h
        show ∃ t2, (σ.writers.set j t1)[i]? = some t2 ∧ t2.pastClose a = true
        by_cases hji : j = i
        · subst hji
          have htt : tj = t := by
            rw [htj] at ht
            exact Option.some.inj ht
          subst htt
          refine ⟨t1, by simp [hi], ?_⟩
          rcases stepWrite_close W a σ.mem s1 tj t1 hst with ⟨_, k2⟩ | ⟨_, _, k3⟩
          · exact k2 hp
          · exact k3
        · refine ⟨t, ?_, hp⟩
          rw [List.getElem?_set_ne hji]
          exact ht
  | maintain w =>
    simp only [Sys.step] at h
    cases hm : stepMaintain W w σ.mem σ.bg with
    | none => simp [hm] at h
    | some r =>
      simp only [hm, Option.map_some', Option.some.injEq] at h
      subst h
      exact ⟨t, ht, hp⟩

/-- A call that executes its close step on `a` is past its close afterwards. -/
theorem closingCall_pastClose (W : World) (a : Nat) (σ σ1 : Sys) (act : Act) (i : Nat)
    (h : Sys.step W σ act = some σ1) (hc : closingCall σ a act = some i) :
    ∃ t1, σ1.writers[i]? = some t1 ∧ t1.pastClose a = true := by
  cases act with
  | call b => simp [closingCall] at hc
  | maintain w => simp [closingCall] at hc
  | writer j =>
    simp only [closingCall] at hc
    cases htj : σ.writers[j]? with
    | none => simp [htj] at hc
    | some tj =>
      simp only [htj] at hc
      have hj : j < σ.writers.length := (List.getElem?_eq_some.mp htj).1
      by_cases hat : tj.atClose a = true
      · simp only [hat, if_true, Option.some.injEq] at hc
        subst hc
        simp only [Sys.step, htj] at h
        cases hst : stepWrite W σ.mem tj with
        | none => simp [hst] at h
        | some r =>
          obtain ⟨s1, t1⟩ := r
          simp only [hst, Option.some.injEq] at h
          subst h
          refine ⟨t1, ?_, (stepWrite_close_exact W a σ.mem s1 tj t1 hst).2 hat⟩
          show (σ.writers.set j t1)[j]? = some t1
          simp [hj]
      · simp [hat] at hc

/-- A call that is past its close of `a` executes no further close step on `a`. -/
theorem not_mem_closers_of_pastClose (W : World) (a i : Nat) (acts : List Act) :
    ∀ (σ : Sys) (t : Writer), σ.writers[i]? = some t → t.pastClose a = true →
      i ∉ closers W a σ acts := by
  induction acts with
  | nil => intro σ t _ _; simp [closers]
  | cons act acts ih =>
    intro σ t ht hp
    simp only [closers]
    cases hs : Sys.step W σ act with
    | none => simp
    | some σ1 =>
      obtain ⟨t1, ht1, hp1⟩ := Sys_step_pastClose W a σ σ1 act i t hs ht hp
      simp only [List.mem_append, not_or]
      refine ⟨?_, ih σ1 t1 ht1 hp1⟩
      intro hmem
      have hcc : closingCall σ a act = some i := by
        cases hcc : closingCall σ a act with
        | none => simp [hcc] at hmem
        | some j =>
          simp only [hcc, Option.toList_some, List.mem_singleton] at hmem
          rw [hmem]
      cases act with
      | call b => simp [closingCall] at hcc
      | maintain w => simp [closingCall] at hcc
      | writer j =>
        simp only [closingCall] at hcc
        cases htj : σ.writers[j]? with
        | none => simp [htj] at hcc
        | some tj =>
          simp only [htj] at hcc
          by_cases hat : tj.atClose a = true
          · simp only [hat, if_true, Option.some.injEq] at hcc
            subst hcc
            have htt : tj = t := by
              rw [htj] at ht
              exact Option.some.inj ht
            subst htt
            have := atClose_not_pastClose a tj hat
            rw [hp] at this
            exact Bool.noConfusion this
          · simp [hat] at hcc

/-- No call executes its close step on `a` twice. -/
theorem closers_nodup (W : World) (a : Nat) (acts : List Act) :
    ∀ σ : Sys, (closers W a σ acts).Nodup := by
  induction acts with
  | nil => intro σ; simp [closers]
  | cons act acts ih =>
    intro σ
    simp only [closers]
    cases hs : Sys.step W σ act with
    | none => simp
    | some σ1 =>
      cases hcc : closingCall σ a act with
      | none => simpa using ih σ1
      | some i =>
        obtain ⟨t1, ht1, hp1⟩ := closingCall_pastClose W a σ σ1 act i hs hcc
        simp only [Option.toList_some, List.singleton_append, List.nodup_cons]
        exact ⟨not_mem_closers_of_pastClose W a i acts σ1 t1 ht1 hp1, ih σ1⟩

/-- Every call that executed its close step on `a` during a schedule is, at
the end, a call that loaded `a` and is past its close. -/
theorem closers_pastClose (W : World) (a i : Nat) (acts : List Act) :
    ∀ σ σ1 : Sys, Sys.run W σ acts = some σ1 → i ∈ closers W a σ acts →
      ∃ t, σ1.writers[i]? = some t ∧ t.pastClose a = true := by
  have hkeep : ∀ (acts : List Act) (σ σ1 : Sys) (t : Writer), Sys.run W σ acts = some σ1 →
      σ.writers[i]? = some t → t.pastClose a = true →
      ∃ t1, σ1.writers[i]? = some t1 ∧ t1.pastClose a = true := by
    intro acts
    induction acts with
    | nil =>
      intro σ σ1 t h ht hp
      simp only [Sys.run, Option.some.injEq] at h
      subst h
      exact ⟨t, ht, hp⟩
    | cons act acts ih =>
      intro σ σ1 t h ht hp
      simp only [Sys.run] at h
      cases hs : Sys.step W σ act with
      | none => simp [hs] at h
      | some σ2 =>
        simp only [hs] at h
        obtain ⟨t2, ht2, hp2⟩ := Sys_step_pastClose W a σ σ2 act i t hs ht hp
        exact ih σ2 σ1 t2 h ht2 hp2
  induction acts with
  | nil => intro σ σ1 _ hmem; simp [closers] at hmem
  | cons act acts ih =>
    intro σ σ1 h hmem
    simp only [Sys.run] at h
    cases hs : Sys.step W σ act with
    | none => simp [hs] at h
    | some σ2 =>
      simp only [hs] at h
      simp only [closers, hs, List.mem_append] at hmem
      rcases hmem with hm | hm
      · have hcc : closingCall σ a act = some i := by
          cases hcc : closingCall σ a act with
          | none => simp [hcc] at hm
          | some j =>
            simp only [hcc, Option.toList_some, List.mem_singleton] at hm
            rw [hm]
        obtain ⟨t2, ht2, hp2⟩ := closingCall_pastClose W a σ σ2 act i hs hcc
        exact hkeep acts σ2 σ1 t2 h ht2 hp2
      · exact ih σ2 σ1 h hm

/-- A list that contains two different elements has at least two elements. -/
theorem two_le_length_of_mem (l : List Nat) (i j : Nat) (hne : i ≠ j)
    (hi : i ∈ l) (hj : j ∈ l) : 2 ≤ l.length := by
  match l, hi, hj with
  | [], hi, _ => simp at hi
  | [x], hi, hj =>
    simp only [List.mem_singleton] at hi hj
    exact absurd (hi.trans hj.symm) hne
  | _ :: _ :: _, _, _ => simp

/-- C8 as stated fails.  After `doubleCloseSchedule` two calls of `Write`
have loaded the connection at address 0 before either tore it down, both
sends failed, and the closer of that one connection was invoked twice. -/
theorem C8_counterexample_double_close :
    Sys.run failingWorld (Sys.init 5) doubleCloseSchedule = some doubleCloseState
      ∧ doubleCloseState.mem.heap.length = 1
      ∧ doubleCloseState.writers.map (fun t => t.conn) = [some 0, some 0]
      ∧ doubleCloseState.mem.trace
          = [.connect, .send 0 3 [1], .close 0 7, .send 0 3 [2], .close 0 7]
      ∧ closeCount 0 doubleCloseState.mem.trace = 2 := by
  refine ⟨by decide, by decide, by decide, by decide, by decide⟩

/-- The close step has no guard: a call that loaded `a` and stands at its
close step can always execute it, whatever the reference holds and however
often `a` was closed before. -/
theorem close_step_enabled (W : World) (a : Nat) (σ : Sys) (i : Nat) (t : Writer)
    (c : v2GRPCConn) (ht : σ.writers[i]? = some t) (hat : t.atClose a = true)
    (hcell : σ.mem.deref a = some c) :
    closingCall σ a (.writer i) = some i
      ∧ ∃ σ1, Sys.step W σ (.writer i) = some σ1
          ∧ σ1.mem.trace = σ.mem.trace ++ [.close a c.closer] := by
  refine ⟨by simp [closingCall, ht, hat], ?_⟩
  obtain ⟨b, pc, conn, err⟩ := t
  simp only [Writer.atClose, Bool.and_eq_true, decide_eq_true_eq, Bool.or_eq_true,
    beq_iff_eq] at hat
  obtain ⟨hconn, hpc⟩ := hat
  have hconn2 : conn = some a := hconn
  have hpc2 : pc = .closeErr ∨ pc = .closeMax := hpc
  clear hconn hpc
  subst hconn2
  rcases hpc2 with hpc | hpc
  · subst hpc
    exact ⟨{ σ with
        mem := σ.mem.record (.close a c.closer)
        writers := σ.writers.set i
          { envelopes := b, pc := .signalErr, conn := some a, err := err } },
      by simp only [Sys.step, ht, stepWrite, hcell], rfl⟩
  · subst hpc
    exact ⟨{ σ with
        mem := σ.mem.record (.close a c.closer)
        writers := σ.writers.set i
          { envelopes := b, pc := .signalMax, conn := some a, err := err } },
      by simp only [Sys.step, ht, stepWrite, hcell], rfl⟩

/-- C8, as amended: under every interleaving of calls of `Write` with the
reconciliation goroutine, the closer of a connection is invoked only by the
close step (line 59 or line 67) of a call of `Write` that loaded that
connection: exactly once per executed close step, at most once per call,
never by the goroutine.  The close step has no guard, so it runs whatever
the reference holds and however often the connection was closed before.
Hence the number of closes of a connection equals the number of calls that
executed their close step on it and never exceeds the number of calls that
loaded it; in every sequential run, where each call ends before the next
operation starts, each connection is closed at most once; and whenever two
different calls that loaded the same connection both execute their close
step, its closer is invoked at least twice. -/
theorem C8_close_once_per_loader (W : World) (N : Int) :
    (∀ acts σ, Sys.run W (Sys.init N) acts = some σ →
        ∀ a, closeCount a σ.mem.trace ≤ loaders a σ.writers)
      ∧ (∀ ops s, runOps W (NewConnManager N) ops = some s →
          ∀ a, closeCount a s.trace ≤ 1)
      ∧ (∀ σ0 acts σ, Sys.run W σ0 acts = some σ → ∀ a,
          closeCount a σ.mem.trace
              = closeCount a σ0.mem.trace + (closers W a σ0 acts).length
            ∧ (closers W a σ0 acts).Nodup
            ∧ (∀ i, i ∈ closers W a σ0 acts →
                ∃ t, σ.writers[i]? = some t ∧ t.conn = some a)
            ∧ ∀ i j, i ≠ j → i ∈ closers W a σ0 acts → j ∈ closers W a σ0 acts →
                closeCount a σ0.mem.trace + 2 ≤ closeCount a σ.mem.trace)
      ∧ ∀ (σ : Sys) (a i : Nat) (t : Writer) (c : v2GRPCConn),
          σ.writers[i]? = some t → t.conn = some a →
          (t.pc = .closeErr ∨ t.pc = .closeMax) → σ.mem.deref a = some c →
          ∃ σ1, Sys.step W σ (.writer i) = some σ1
            ∧ closeCount a σ1.mem.trace = closeCount a σ.mem.trace + 1 := by
  refine ⟨?_, ?_, ?_, ?_⟩
  · intro acts σ h a
    have h1 := Sys_run_close W a acts (Sys.init N) σ (by simp [Sys.init, NewConnManager]) h
    refine le_trans h1 ?_
    unfold loaders
    apply List.countP_mono_left
    intro t _ ht
    simp only [Writer.pastClose, Bool.and_eq_true] at ht
    exact ht.1
  · intro ops s h a
    have hinit : OnceInv (NewConnManager N) := by
      intro a
      simp [NewConnManager]
    exact (OnceInv_runOps W ops (NewConnManager N) s hinit h a).1
  · intro σ0 acts σ h a
    have hex := Sys_run_close_exact W a acts σ0 σ h
    refine ⟨hex, closers_nodup W a acts σ0, ?_, ?_⟩
    · intro i hi
      obtain ⟨t, ht, hp⟩ := closers_pastClose W a i acts σ0 σ h hi
      refine ⟨t, ht, ?_⟩
      simp only [Writer.pastClose, Bool.and_eq_true, decide_eq_true_eq] at hp
      exact hp.1
    · intro i j hne hi hj
      have := two_le_length_of_mem (closers W a σ0 acts) i j hne hi hj
      omega
  · intro σ a i t c ht hconn hpc hcell
    have hat : t.atClose a = true := by
      simp only [Writer.atClose, Bool.and_eq_true, decide_eq_true_eq, Bool.or_eq_true,
        beq_iff_eq]
      exact ⟨hconn, hpc⟩
    obtain ⟨hcc, σ1, hstep, _⟩ := close_step_enabled W a σ i t c ht hat hcell
    refine ⟨σ1, hstep, ?_⟩
    rw [Sys_step_close_exact W a σ σ1 (.writer i) hstep, hcc]
    rfl

/-- Witness of C8.  In the program reached by `raceSchedule` the connection
at address 0 was loaded by two calls and closed once; in the sequential
run `shortRun` it was closed once; in `doubleCloseSchedule` the calls 0 and
1 both execute their close step on the connection at address 0 and the
number of closes grows from zero to two. -/
theorem C8_close_once_per_loader_witness :
    Sys.run failingWorld (Sys.init 5) raceSchedule = some raceState
      ∧ loaders 0 raceState.writers = 2
      ∧ closeCount 0 raceState.mem.trace ≤ loaders 0 raceState.writers
      ∧ closeCount 0
          ((runOps healthyWorld (NewConnManager 2) shortRun).getD (NewConnManager 2)).trace
          ≤ 1
      ∧ Sys.run failingWorld (Sys.init 5) doubleCloseSchedule = some doubleCloseState
      ∧ closers failingWorld 0 (Sys.init 5) doubleCloseSchedule = [0, 1]
      ∧ closeCount 0 doubleCloseState.mem.trace
          = closeCount 0 (Sys.init 5).mem.trace
            + (closers failingWorld 0 (Sys.init 5) doubleCloseSchedule).length
      ∧ closeCount 0 (Sys.init 5).mem.trace + 2 ≤ closeCount 0 doubleCloseState.mem.trace :=
  ⟨by decide, by decide,
    (C8_close_once_per_loader failingWorld 5).1 raceSchedule raceState (by decide) 0,
    (C8_close_once_per_loader healthyWorld 2).2.1 shortRun
      ((runOps healthyWorld (NewConnManager 2) shortRun).getD (NewConnManager 2))
      (by decide) 0,
    by decide, by decide,
    ((C8_close_once_per_loader failingWorld 5).2.2.1 (Sys.init 5) doubleCloseSchedule
      doubleCloseState (by decide) 0).1,
    ((C8_close_once_per_loader failingWorld 5).2.2.1 (Sys.init 5) doubleCloseSchedule
      doubleCloseState (by decide) 0).2.2.2 0 1 (by decide) (by decide) (by decide)⟩

end ClientPoolV2
